import Mathlib

/-!
Verification of the Product Matching Engine of the GHL chatbot repository
(`src/services/pricingService.js` and collaborators).

Strings are modelled as lists of characters (`Str`).  JavaScript numbers are
modelled as exact fractions (`Frac`: an integer numerator over a positive
natural denominator), with comparisons decided by integer cross
multiplication; `Frac.toRat` maps a fraction to the rational it denotes and is
used only inside proofs.  The external embedding provider is an explicit
oracle `Str → Option (List Frac)` (the source's `_generateEmbedding` catches
provider errors internally and returns `null`, i.e. `none`).  A
cosine-similarity value `dot/(√normA·√normB)` is represented exactly by the
pair `(dot, normA*normB)` denoting `dot/√(normA*normB)`; comparisons of such
scores are decided by cross-multiplied squares with sign analysis, which
agrees with the real-valued comparison whenever the norm products are
positive, as they are in every score the code constructs.
-/

namespace GHLBot

/-- Characters of a JavaScript string. -/
abbrev Str := List Char

/-- JavaScript `toLowerCase` (ASCII range, which is all the code relies on). -/
def lowerStr (s : Str) : Str := s.map Char.toLower

/-- Whitespace recognized by JavaScript `trim` and `\s` (ASCII part). -/
def jsWhitespace (c : Char) : Bool :=
  c = ' ' || c = '\t' || c = '\n' || c = '\r' || c = '\x0b' || c = '\x0c'

/-- JavaScript `String.prototype.trim`. -/
def trimStr (s : Str) : Str :=
  ((s.dropWhile jsWhitespace).reverse.dropWhile jsWhitespace).reverse

/-- JavaScript `hay.includes(needle)` (substring containment). -/
def containsSub (hay needle : Str) : Bool :=
  hay.tails.any (fun t => needle.isPrefixOf t)

/-- An exact number: `num / den` with `den` positive.  This stands for the
JavaScript (floating-point) numbers of the source, idealized to exact
arithmetic. -/
structure Frac where
  num : ℤ
  den : ℕ
  den_pos : 0 < den

/-- The integer `n` as a fraction. -/
def Frac.ofInt (n : ℤ) : Frac := ⟨n, 1, Nat.one_pos⟩

/-- The zero number. -/
def Frac.zero : Frac := Frac.ofInt 0

/-- Comparison `a ≤ b` by cross multiplication. -/
def Frac.ble (a b : Frac) : Bool := decide (a.num * (b.den : ℤ) ≤ b.num * (a.den : ℤ))

/-- Comparison `a < b` by cross multiplication. -/
def Frac.blt (a b : Frac) : Bool := decide (a.num * (b.den : ℤ) < b.num * (a.den : ℤ))

/-- Value equality `a = b` by cross multiplication (JavaScript `===` on
numbers). -/
def Frac.beq (a b : Frac) : Bool := decide (a.num * (b.den : ℤ) = b.num * (a.den : ℤ))

/-- Product of two numbers. -/
def Frac.mul (a b : Frac) : Frac :=
  ⟨a.num * b.num, a.den * b.den, Nat.mul_pos a.den_pos b.den_pos⟩

/-- Sum of two numbers. -/
def Frac.add (a b : Frac) : Frac :=
  ⟨a.num * (b.den : ℤ) + b.num * (a.den : ℤ), a.den * b.den,
    Nat.mul_pos a.den_pos b.den_pos⟩

/-- The rational a fraction denotes (proof-level only). -/
def Frac.toRat (a : Frac) : ℚ := Rat.divInt a.num (a.den : ℤ)

theorem Frac.den_int_pos (a : Frac) : (0 : ℤ) < (a.den : ℤ) := by
  exact_mod_cast a.den_pos

theorem Frac.ble_iff (a b : Frac) : Frac.ble a b = true ↔ a.toRat ≤ b.toRat := by
  rw [Frac.ble, decide_eq_true_iff, Frac.toRat, Frac.toRat,
    Rat.divInt_le_divInt a.den_int_pos b.den_int_pos]

theorem Frac.blt_iff (a b : Frac) : Frac.blt a b = true ↔ a.toRat < b.toRat := by
  have h := Frac.ble_iff b a
  rw [Frac.ble, decide_eq_true_iff] at h
  rw [Frac.blt, decide_eq_true_iff]
  constructor
  · intro h1
    rcases lt_or_le a.toRat b.toRat with h2 | h2
    · exact h2
    · exact absurd (h.2 h2) (by omega)
  · intro h1
    rcases lt_or_le (a.num * (b.den : ℤ)) (b.num * (a.den : ℤ)) with h2 | h2
    · exact h2
    · exact absurd (h.1 h2) (not_le_of_lt h1)

theorem Frac.beq_iff (a b : Frac) : Frac.beq a b = true ↔ a.toRat = b.toRat := by
  constructor
  · intro h
    have h1 : a.toRat ≤ b.toRat := (Frac.ble_iff a b).1 (by
      simp only [Frac.beq, decide_eq_true_iff] at h
      simp only [Frac.ble, decide_eq_true_iff, h, le_refl])
    have h2 : b.toRat ≤ a.toRat := (Frac.ble_iff b a).1 (by
      simp only [Frac.beq, decide_eq_true_iff] at h
      simp only [Frac.ble, decide_eq_true_iff, h, le_refl])
    exact le_antisymm h1 h2
  · intro h
    have h1 := (Frac.ble_iff a b).2 (le_of_eq h)
    have h2 := (Frac.ble_iff b a).2 (le_of_eq h.symm)
    simp only [Frac.ble, decide_eq_true_iff] at h1 h2
    simp only [Frac.beq, decide_eq_true_iff]
    exact le_antisymm h1 h2

theorem Frac.toRat_zero : Frac.zero.toRat = 0 := by
  simp [Frac.zero, Frac.ofInt, Frac.toRat]

theorem Frac.toRat_mul (a b : Frac) : (Frac.mul a b).toRat = a.toRat * b.toRat := by
  rw [Frac.mul, Frac.toRat, Frac.toRat, Frac.toRat]
  push_cast
  rw [Rat.divInt_mul_divInt _ _ (ne_of_gt a.den_int_pos) (ne_of_gt b.den_int_pos)]

/-- Keeps the characters `[0-9.]` — JavaScript `replace(/[^0-9.]/g, '')`. -/
def stripNonPriceChars (s : Str) : Str :=
  s.filter (fun c => c.isDigit || c = '.')

/-- Numeric value of a digit string. -/
def digitsToNat (s : Str) : ℕ :=
  s.foldl (fun n c => 10 * n + (c.toNat - 48)) 0

/-- JavaScript `parseFloat` restricted to its use in this code: the argument
has already been stripped to the characters `[0-9.]`, so `parseFloat` reads a
maximal prefix `digits* ('.' digits*)?` and yields `NaN` (here `none`) exactly
when that prefix contains no digit at all. -/
def jsParseFloat (s : Str) : Option Frac :=
  let intPart := s.takeWhile Char.isDigit
  let rest := s.drop intPart.length
  let fracPart :=
    match rest with
    | '.' :: r => r.takeWhile Char.isDigit
    | _ => []
  if intPart.isEmpty && fracPart.isEmpty then none
  else
    some ⟨(digitsToNat intPart : ℤ) * 10 ^ fracPart.length + (digitsToNat fracPart : ℤ),
      10 ^ fracPart.length, Nat.pos_pow_of_pos _ (by decide)⟩

/-- Source `_parsePrice` (`pricingService.js` lines 463–467): falsy input
(missing value or empty string) yields `0`; otherwise strip all characters but
`[0-9.]`, `parseFloat`, and map `NaN` to `0`. -/
def parsePrice : Option Str → Frac
  | none => Frac.zero
  | some s =>
    if s.isEmpty then Frac.zero
    else
      match jsParseFloat (stripNonPriceChars s) with
      | none => Frac.zero
      | some v => v

/-- A parsed catalog row: association list from header names to cell values
(the source's `item` object built in `_loadCSVData`). -/
abbrev Item := List (Str × Str)

/-- JavaScript `item[field]` on the row object. -/
def itemGet (it : Item) (k : Str) : Option Str :=
  (it.find? (fun p => p.1 = k)).map (·.2)

/-- JavaScript truthiness test `if (item[field])`: the field is present and is
a non-empty string. -/
def itemTruthy (it : Item) (k : Str) : Option Str :=
  match itemGet it k with
  | some v => if v.isEmpty then none else some v
  | none => none

/-- Price-column aliases scanned by `_getPrice` (lines 580–592). -/
def priceFields : List Str := ["PUBLICO TIENDA".data, "price".data, "precio".data]

/-- One step of `_getPrice`: scan fields in order; for each truthy field parse
the stripped value; return it when it is a number greater than `0`, otherwise
keep scanning; return `0` when the fields are exhausted. -/
def getPriceAux : List Str → Item → Frac
  | [], _ => Frac.zero
  | f :: fs, it =>
    match itemTruthy it f with
    | some v =>
      match jsParseFloat (stripNonPriceChars v) with
      | some p => if Frac.blt Frac.zero p then p else getPriceAux fs it
      | none => getPriceAux fs it
    | none => getPriceAux fs it

/-- Source `_getPrice` (`pricingService.js` lines 580–592). -/
def getPrice (it : Item) : Frac := getPriceAux priceFields it

/-- A one-product catalog row whose price cell is `v`. -/
def rowWithPrice (v : Str) : Item :=
  [("Prod".data, "PANTALLA IPHONE 14".data), ("PUBLICO TIENDA".data, v)]

/-- C1 counterexample: the source price extractor `_getPrice` returns the
number `0` — not `null` — on rows whose price cell is `"0"`, `""`, `"N/A"` or
`"abc"`; its codomain has no `null` at all, so the claim that these rows
"yield null, never 0" is false at each of these concrete rows. -/
theorem getPrice_returns_zero_not_null :
    (getPrice (rowWithPrice "0".data)).toRat = 0 ∧
    (getPrice (rowWithPrice "".data)).toRat = 0 ∧
    (getPrice (rowWithPrice "N/A".data)).toRat = 0 ∧
    (getPrice (rowWithPrice "abc".data)).toRat = 0 := by
  refine ⟨?_, ?_, ?_, ?_⟩ <;> decide

theorem getPriceAux_pos_or_zero (fs : List Str) (it : Item) :
    (getPriceAux fs it).toRat = 0 ∨
      (0 < (getPriceAux fs it).toRat ∧ ∃ f ∈ fs, ∃ v, itemTruthy it f = some v ∧
        jsParseFloat (stripNonPriceChars v) = some (getPriceAux fs it)) := by
  induction fs with
  | nil => exact Or.inl Frac.toRat_zero
  | cons f fs ih =>
    have step :
        ((getPriceAux fs it).toRat = 0 ∨
          (0 < (getPriceAux fs it).toRat ∧ ∃ g ∈ fs, ∃ v, itemTruthy it g = some v ∧
            jsParseFloat (stripNonPriceChars v) = some (getPriceAux fs it))) →
        ((getPriceAux fs it).toRat = 0 ∨
          (0 < (getPriceAux fs it).toRat ∧ ∃ g ∈ f :: fs, ∃ v, itemTruthy it g = some v ∧
            jsParseFloat (stripNonPriceChars v) = some (getPriceAux fs it))) := by
      rintro (h | ⟨hpos, g, hg, w, hw, hp⟩)
      · exact Or.inl h
      · exact Or.inr ⟨hpos, g, List.mem_cons_of_mem _ hg, w, hw, hp⟩
    rw [getPriceAux]
    split
    next v hT =>
      split
      next p hP =>
        split
        next hpos =>
          refine Or.inr ⟨?_, f, List.mem_cons_self _ _, v, hT, hP⟩
          have := (Frac.blt_iff Frac.zero p).1 hpos
          rwa [Frac.toRat_zero] at this
        next hpos => exact step ih
      next hP => exact step ih
    next hT => exact step ih

/-- C1 amended: the source price extractor `_getPrice` returns the parsed
value of some price-column alias only when that value is greater than `0`, and
returns the number `0` (not `null`) in every other case; in particular rows
whose price cell is `"0"`, `""`, `"N/A"` or `"abc"` all yield `0`. -/
theorem getPrice_pos_parse_or_zero :
    (∀ it : Item,
      (getPrice it).toRat = 0 ∨
        (0 < (getPrice it).toRat ∧ ∃ f ∈ priceFields, ∃ v, itemTruthy it f = some v ∧
          jsParseFloat (stripNonPriceChars v) = some (getPrice it))) ∧
    (getPrice (rowWithPrice "0".data)).toRat = 0 ∧
    (getPrice (rowWithPrice "".data)).toRat = 0 ∧
    (getPrice (rowWithPrice "N/A".data)).toRat = 0 ∧
    (getPrice (rowWithPrice "abc".data)).toRat = 0 := by
  refine ⟨fun it => getPriceAux_pos_or_zero priceFields it, ?_, ?_, ?_, ?_⟩ <;> decide


/-- The number one. -/
def Frac.one : Frac := Frac.ofInt 1

theorem Frac.toRat_ofInt (n : ℤ) : (Frac.ofInt n).toRat = (n : ℚ) := by
  simp [Frac.ofInt, Frac.toRat]

theorem Frac.ble_zero_iff (a : Frac) : Frac.ble a Frac.zero = true ↔ a.toRat ≤ 0 := by
  rw [Frac.ble_iff, Frac.toRat_zero]

theorem Frac.zero_ble_iff (a : Frac) : Frac.ble Frac.zero a = true ↔ 0 ≤ a.toRat := by
  rw [Frac.ble_iff, Frac.toRat_zero]

theorem Frac.zero_blt_iff (a : Frac) : Frac.blt Frac.zero a = true ↔ 0 < a.toRat := by
  rw [Frac.blt_iff, Frac.toRat_zero]

/-- A similarity score: the pair `(d, q)` denotes the real number `d / √q`
(with `q > 0` in every score the code builds; a non-positive `q` is read as
`1` by the comparison, so that the order is total on the whole type).  This
represents the value `dotProduct / (Math.sqrt(normA) * Math.sqrt(normB))`
computed by `_cosineSimilarity` without leaving exact arithmetic. -/
structure Score where
  d : Frac
  q : Frac

/-- The effective (positive) radicand used by comparisons. -/
def Score.qv (s : Score) : Frac :=
  if Frac.blt Frac.zero s.q then s.q else Frac.one

/-- Decides `d₁/√q₁ ≤ d₂/√q₂` by sign analysis and cross-multiplied
squares. -/
def Score.leB (s t : Score) : Bool :=
  if Frac.ble s.d Frac.zero then
    if Frac.ble Frac.zero t.d then true
    else Frac.ble (Frac.mul (Frac.mul t.d t.d) s.qv) (Frac.mul (Frac.mul s.d s.d) t.qv)
  else
    Frac.blt Frac.zero t.d &&
      Frac.ble (Frac.mul (Frac.mul s.d s.d) t.qv) (Frac.mul (Frac.mul t.d t.d) s.qv)

/-- Decides `d₁/√q₁ < d₂/√q₂`. -/
def Score.ltB (s t : Score) : Bool := !(Score.leB t s)

theorem Score.qv_pos (s : Score) : 0 < s.qv.toRat := by
  rw [Score.qv]
  split
  · exact (Frac.zero_blt_iff _).1 (by assumption)
  · rw [Frac.one, Frac.toRat_ofInt]
    norm_num

theorem Frac.sq_mul_toRat (a b : Frac) :
    (Frac.mul (Frac.mul a a) b).toRat = a.toRat ^ 2 * b.toRat := by
  rw [Frac.toRat_mul, Frac.toRat_mul, sq]

/-- The rational-arithmetic content of `Score.leB s t`: with `a, c` the two
numerators and `p, q` the two effective radicands, `a/√p ≤ c/√q`. -/
def ratCond (a c p q : ℚ) : Prop :=
  (a ≤ 0 ∧ 0 ≤ c) ∨ (a ≤ 0 ∧ c < 0 ∧ c ^ 2 * p ≤ a ^ 2 * q) ∨
    (0 < a ∧ 0 < c ∧ a ^ 2 * q ≤ c ^ 2 * p)

theorem Score.leB_iff_ratCond (s t : Score) :
    Score.leB s t = true ↔ ratCond s.d.toRat t.d.toRat s.qv.toRat t.qv.toRat := by
  rw [Score.leB, ratCond]
  split
  next h1 =>
    have ha : s.d.toRat ≤ 0 := (Frac.ble_zero_iff _).1 h1
    split
    next h2 =>
      have hc : 0 ≤ t.d.toRat := (Frac.zero_ble_iff _).1 h2
      constructor
      · intro _
        exact Or.inl ⟨ha, hc⟩
      · intro _
        rfl
    next h2 =>
      have hc : t.d.toRat < 0 := by
        have := (Frac.zero_ble_iff t.d).not.1 h2
        exact lt_of_not_le (by simpa using this)
      rw [Frac.ble_iff, Frac.sq_mul_toRat, Frac.sq_mul_toRat]
      constructor
      · intro h
        exact Or.inr (Or.inl ⟨ha, hc, h⟩)
      · rintro (⟨_, h0⟩ | ⟨_, _, h⟩ | ⟨hpos, _, _⟩)
        · exact absurd h0 (not_le_of_lt hc)
        · exact h
        · exact absurd hpos (not_lt.mpr ha)
  next h1 =>
    have ha : 0 < s.d.toRat := by
      have := (Frac.ble_zero_iff s.d).not.1 h1
      exact lt_of_not_le (by simpa using this)
    rw [Bool.and_eq_true, Frac.zero_blt_iff, Frac.ble_iff, Frac.sq_mul_toRat,
      Frac.sq_mul_toRat]
    constructor
    · rintro ⟨hc, h⟩
      exact Or.inr (Or.inr ⟨ha, hc, h⟩)
    · rintro (⟨hle, _⟩ | ⟨hle, _, _⟩ | ⟨_, hc, h⟩)
      · exact absurd hle (not_le_of_lt ha)
      · exact absurd hle (not_le_of_lt ha)
      · exact ⟨hc, h⟩

theorem ratCond_trans {a c e p q r : ℚ} (hp : 0 < p) (hq : 0 < q) (hr : 0 < r)
    (h1 : ratCond a c p q) (h2 : ratCond c e q r) : ratCond a e p r := by
  rcases h1 with ⟨ha, hc⟩ | ⟨ha, hc, hm⟩ | ⟨ha, hc, hm⟩ <;>
    rcases h2 with ⟨hc2, he⟩ | ⟨hc2, he, hm2⟩ | ⟨hc2, he, hm2⟩
  · exact Or.inl ⟨ha, he⟩
  · exfalso
    have hcz : c = 0 := le_antisymm hc2 hc
    rw [hcz] at hm2
    nlinarith [sq_nonneg e, mul_pos (mul_pos (mul_self_pos.2 (ne_of_lt he)) hq) hr]
  · exact Or.inl ⟨ha, le_of_lt he⟩
  · exact Or.inl ⟨ha, he⟩
  · refine Or.inr (Or.inl ⟨ha, he, ?_⟩)
    have hc2sq : 0 < c ^ 2 := by
      rw [sq]
      exact mul_self_pos.2 (ne_of_lt hc)
    nlinarith [mul_le_mul_of_nonneg_left hm (sq_nonneg e),
      mul_le_mul_of_nonneg_left hm2 (sq_nonneg a)]
  · exact absurd hc2 (not_lt.mpr (le_of_lt hc))
  · exact absurd hc2 (not_le_of_lt hc)
  · exact absurd hc2 (not_le_of_lt hc)
  · refine Or.inr (Or.inr ⟨ha, he, ?_⟩)
    nlinarith [mul_le_mul_of_nonneg_right hm (le_of_lt hr),
      mul_le_mul_of_nonneg_left hm2 (le_of_lt hp)]

theorem ratCond_total {a c p q : ℚ} :
    ratCond a c p q ∨ ratCond c a q p := by
  rcases le_or_lt a 0 with ha | ha <;> rcases le_or_lt c 0 with hc | hc
  · rcases eq_or_lt_of_le hc with hc0 | hcneg
    · exact Or.inl (Or.inl ⟨ha, le_of_eq hc0.symm⟩)
    · rcases eq_or_lt_of_le ha with ha0 | haneg
      · exact Or.inr (Or.inl ⟨hc, le_of_eq ha0.symm⟩)
      · rcases le_total (c ^ 2 * p) (a ^ 2 * q) with h | h
        · exact Or.inl (Or.inr (Or.inl ⟨ha, hcneg, h⟩))
        · exact Or.inr (Or.inr (Or.inl ⟨hc, haneg, h⟩))
  · exact Or.inl (Or.inl ⟨ha, le_of_lt hc⟩)
  · exact Or.inr (Or.inl ⟨hc, le_of_lt ha⟩)
  · rcases le_total (a ^ 2 * q) (c ^ 2 * p) with h | h
    · exact Or.inl (Or.inr (Or.inr ⟨ha, hc, h⟩))
    · exact Or.inr (Or.inr (Or.inr ⟨hc, ha, h⟩))

theorem Score.leB_trans {s t u : Score} (h1 : Score.leB s t = true)
    (h2 : Score.leB t u = true) : Score.leB s u = true := by
  rw [Score.leB_iff_ratCond] at h1 h2 ⊢
  exact ratCond_trans (Score.qv_pos s) (Score.qv_pos t) (Score.qv_pos u) h1 h2

theorem Score.leB_total (s t : Score) : Score.leB s t = true ∨ Score.leB t s = true := by
  rw [Score.leB_iff_ratCond, Score.leB_iff_ratCond]
  exact ratCond_total


/-- Source `_extractBrand` (lines 469–480): ordered keyword containment. -/
def extractBrand (productName : Str) : Str :=
  let n := lowerStr productName
  if containsSub n "iphone".data || containsSub n "apple".data then "apple".data
  else if containsSub n "samsung".data || containsSub n "galaxy".data then "samsung".data
  else if containsSub n "xiaomi".data || containsSub n "redmi".data then "xiaomi".data
  else if containsSub n "huawei".data then "huawei".data
  else if containsSub n "motorola".data then "motorola".data
  else if containsSub n "nokia".data then "nokia".data
  else "unknown".data

/-- Source `_extractServiceType` (lines 502–514). -/
def extractServiceType (productName : Str) : Str :=
  let n := lowerStr productName
  if containsSub n "pantalla".data || containsSub n "display".data ||
      containsSub n "screen".data then "pantalla".data
  else if containsSub n "bateria".data || containsSub n "battery".data then "bateria".data
  else if containsSub n "camara".data || containsSub n "camera".data ||
      containsSub n "lente".data then "camara".data
  else if containsSub n "altavoz".data || containsSub n "speaker".data then "altavoz".data
  else if containsSub n "flex".data || containsSub n "cable".data then "flex".data
  else if containsSub n "tapa".data || containsSub n "cover".data then "tapa".data
  else if containsSub n "antena".data || containsSub n "wifi".data then "antena".data
  else "general".data

/-- Source `_extractQualityType` (lines 516–526). -/
def extractQualityType (productName : Str) : Str :=
  let n := lowerStr productName
  if containsSub n "original".data || containsSub n "oem".data then "original".data
  else if containsSub n "compatible".data || containsSub n "comp".data then "compatible".data
  else if containsSub n "incell".data || containsSub n "in-cell".data then "incell".data
  else if containsSub n "oled".data || containsSub n "amoled".data then "oled".data
  else if containsSub n "lcd".data then "lcd".data
  else "standard".data

/-- Source `_extractServiceFromQuery` (lines 528–536). -/
def extractServiceFromQuery (query : Str) : Str :=
  let n := lowerStr query
  if containsSub n "pantalla".data || containsSub n "screen".data ||
      containsSub n "display".data then "pantalla".data
  else if containsSub n "bateria".data || containsSub n "battery".data then "bateria".data
  else if containsSub n "camara".data || containsSub n "camera".data then "camara".data
  else "general".data

/-- Skips a run of whitespace — the regex `\s*` (these patterns are followed
by non-whitespace literals, so the greedy skip is exact). -/
def dropSpaces (s : Str) : Str := s.dropWhile jsWhitespace

/-- Matches a sequence of literal words, each preceded by `\s*`; returns the
remaining text after the last word. -/
def matchWords : List Str → Str → Option Str
  | [], s => some s
  | w :: ws, s =>
    let t := dropSpaces s
    if w.isPrefixOf t then matchWords ws (t.drop w.length) else none

/-- Tests one of the `_extractExactDeviceModel` regexes at one start position:
the literal head word, then `\s*`-separated further words, then a negative
lookahead `(?!\s*n₁|\s*n₂|…)`. -/
def patTestAt (head : Str) (ws : List Str) (negs : List Str) (s : Str) : Bool :=
  if head.isPrefixOf s then
    match matchWords ws (s.drop head.length) with
    | some rest => negs.all (fun n => !(n.isPrefixOf (dropSpaces rest)))
    | none => false
  else false

/-- Tests the regex anywhere in the string (the regex engine scans start
positions left to right). -/
def patTest (head : Str) (ws : List Str) (negs : List Str) (s : Str) : Bool :=
  s.tails.any (patTestAt head ws negs)

/-- One row of the `iphonePatterns` table of `_extractExactDeviceModel`
(lines 192–218). -/
structure IphonePattern where
  head : Str
  rest : List Str
  negs : List Str
  model : Str

/-- The ordered pattern table of `_extractExactDeviceModel`. -/
def iphonePatterns : List IphonePattern := [
  ⟨"iphone".data, ["15".data, "pro".data, "max".data], [], "iphone 15 pro max".data⟩,
  ⟨"iphone".data, ["15".data, "pro".data], ["max".data], "iphone 15 pro".data⟩,
  ⟨"iphone".data, ["15".data, "plus".data], [], "iphone 15 plus".data⟩,
  ⟨"iphone".data, ["15".data], ["pro".data, "plus".data], "iphone 15".data⟩,
  ⟨"iphone".data, ["14".data, "pro".data, "max".data], [], "iphone 14 pro max".data⟩,
  ⟨"iphone".data, ["14".data, "pro".data], ["max".data], "iphone 14 pro".data⟩,
  ⟨"iphone".data, ["14".data, "plus".data], [], "iphone 14 plus".data⟩,
  ⟨"iphone".data, ["14".data], ["pro".data, "plus".data], "iphone 14".data⟩,
  ⟨"iphone".data, ["13".data, "pro".data, "max".data], [], "iphone 13 pro max".data⟩,
  ⟨"iphone".data, ["13".data, "pro".data], ["max".data], "iphone 13 pro".data⟩,
  ⟨"iphone".data, ["13".data, "mini".data], [], "iphone 13 mini".data⟩,
  ⟨"iphone".data, ["13".data], ["pro".data, "mini".data], "iphone 13".data⟩]

/-- The sentinel `'unknown'`. -/
def unknownStr : Str := "unknown".data

/-- Source `_extractExactDeviceModel` (lines 192–218): first pattern (in
table order) that tests positive wins; no pattern yields `'unknown'`. -/
def extractExactDeviceModel (query : Str) : Str :=
  let ql := lowerStr query
  match iphonePatterns.find? (fun p => patTest p.head p.rest p.negs ql) with
  | some p => p.model
  | none => unknownStr

/-- Collapses whitespace runs to single spaces (JavaScript
`replace(/\s+/g, ' ')`); the flag records whether the previous character was
whitespace. -/
def normalizeSpacesAux : Bool → Str → Str
  | _, [] => []
  | prevWs, c :: rest =>
    if jsWhitespace c then
      if prevWs then normalizeSpacesAux true rest
      else ' ' :: normalizeSpacesAux true rest
    else c :: normalizeSpacesAux false rest

/-- JavaScript `replace(/\s+/g, ' ')`. -/
def normalizeSpaces (s : Str) : Str := normalizeSpacesAux false s

/-- The capture group `(\d+(?:\s*pro(?:\s*max)?)?|\s*plus|\s*mini|se|xr|xs|x)`
of the iPhone regex in `_extractDeviceFromName`, applied right after a literal
`iphone` (the regex's own `\s*` is handled by the greedy space skip; every
alternative starts with a non-space character, so no other split of the
spaces can match). -/
def iphoneGroupAt (s : Str) : Option Str :=
  let t := dropSpaces s
  let digits := t.takeWhile Char.isDigit
  if digits.isEmpty = false then
    let afterD := t.drop digits.length
    let sp1 := afterD.takeWhile jsWhitespace
    let afterSp1 := afterD.drop sp1.length
    if "pro".data.isPrefixOf afterSp1 then
      let afterPro := afterSp1.drop 3
      let sp2 := afterPro.takeWhile jsWhitespace
      let afterSp2 := afterPro.drop sp2.length
      if "max".data.isPrefixOf afterSp2 then
        some (digits ++ sp1 ++ "pro".data ++ sp2 ++ "max".data)
      else some (digits ++ sp1 ++ "pro".data)
    else some digits
  else if "plus".data.isPrefixOf t then some "plus".data
  else if "mini".data.isPrefixOf t then some "mini".data
  else if "se".data.isPrefixOf t then some "se".data
  else if "xr".data.isPrefixOf t then some "xr".data
  else if "xs".data.isPrefixOf t then some "xs".data
  else if "x".data.isPrefixOf t then some "x".data
  else none

/-- Scans for the first position where the iPhone regex of
`_extractDeviceFromName` matches, returning its capture group. -/
def findIphoneModel (n : Str) : Option Str :=
  (n.tails.filterMap (fun t =>
    if "iphone".data.isPrefixOf t then iphoneGroupAt (t.drop 6) else none)).head?

/-- Lowercase latin letter test — the regex class `[a-z]`. -/
def isLatinLower (c : Char) : Bool := 'a' ≤ c && c ≤ 'z'

/-- The capture group `([a-z]\d+|note\s*\d+|s\d+)` of the Samsung regex in
`_extractDeviceFromName`, tried at one position. -/
def galaxyGroupAt (t : Str) : Option Str :=
  match t with
  | [] => none
  | c :: rest =>
    let d1 := rest.takeWhile Char.isDigit
    if isLatinLower c && d1.isEmpty = false then some (c :: d1)
    else if "note".data.isPrefixOf (c :: rest) then
      let after := (c :: rest).drop 4
      let sp := after.takeWhile jsWhitespace
      let ds := (after.drop sp.length).takeWhile Char.isDigit
      if ds.isEmpty = false then some ("note".data ++ sp ++ ds) else none
    else if c = 's' && d1.isEmpty = false then some (c :: d1)
    else none

/-- Scans for the first match of `(?:galaxy\s*)?([a-z]\d+|note\s*\d+|s\d+)`:
at each position the greedy optional `galaxy\s*` is tried first, then the
bare group. -/
def findGalaxyModel (n : Str) : Option Str :=
  (n.tails.filterMap (fun t =>
    if "galaxy".data.isPrefixOf t then
      match galaxyGroupAt (dropSpaces (t.drop 6)) with
      | some g => some g
      | none => galaxyGroupAt t
    else galaxyGroupAt t)).head?

/-- Source `_extractDeviceFromName` (lines 482–500). -/
def extractDeviceFromName (productName : Str) : Str :=
  let n := lowerStr productName
  match findIphoneModel n with
  | some g => "iphone ".data ++ trimStr (normalizeSpaces g)
  | none =>
    if containsSub n "samsung".data || containsSub n "galaxy".data then
      match findGalaxyModel n with
      | some g => "samsung ".data ++ g
      | none => unknownStr
    else unknownStr

/-- The bilingual synonym table of `_fallbackKeywordSearch` (lines 296–302). -/
def translations (k : Str) : Option Str :=
  if k = "screen".data then some "pantalla".data
  else if k = "battery".data then some "bateria".data
  else if k = "camera".data then some "camara".data
  else if k = "charging".data then some "carga".data
  else if k = "speaker".data then some "altavoz".data
  else none

/-- Query tokenization of `_fallbackKeywordSearch` (lines 292–309): lowercase,
split on single spaces, keep tokens longer than 2 characters, then append the
translations of the original tokens (`forEach` does not visit elements pushed
during the walk). -/
def keywordsOf (query : Str) : List Str :=
  let ks := ((lowerStr query).splitOn ' ').filter (fun k => 2 < k.length)
  ks ++ ks.filterMap translations

/-- Keyword count of `_fallbackKeywordSearch` (lines 317–323). -/
def keywordScore (ks : List Str) (productText : Str) : ℕ :=
  ks.foldl (fun acc k => if containsSub productText k then acc + 1 else acc) 0

/-- Metadata derived for each catalog row (lines 86–93). -/
structure Metadata where
  brand : Str
  deviceModel : Str
  serviceType : Str
  qualityType : Str
  originalIndex : ℕ
  hasValidPrice : Bool

/-- One entry of the `products` map (lines 96–102). -/
structure Product where
  id : Str
  name : Str
  price : Frac
  metadata : Metadata
  originalItem : Item

/-- The service state `searchProducts` reads: the `products` map and the
`vectorStore` map, both in insertion order (JavaScript `Map` preserves it and
keeps keys unique). -/
structure ServiceState where
  products : List Product
  vectorStore : List (Str × List Frac)

/-- One element of a `searchProducts` result: the spread original item plus
the `_similarity`/`_score`, `_productId`, `_metadata`, `_semanticMatch` /
`_keywordMatch`, `_isApproximate` and `_exactModelRequested` annotations
(absent JavaScript fields modelled as `false` / `none`; keyword results keep
the identity of the product they came from in `productId`). -/
structure SearchResult where
  item : Item
  score : Score
  productId : Str
  metadata : Metadata
  semanticMatch : Bool
  keywordMatch : Bool
  isApproximate : Bool
  exactModelRequested : Option Str

/-- Dot product and the two squared norms of `_cosineSimilarity`
(lines 556–564), over the zipped entries. -/
def dotAndNorms (a b : List Frac) : Frac × Frac × Frac :=
  (a.zip b).foldl
    (fun acc p =>
      (acc.1.add (p.1.mul p.2), acc.2.1.add (p.1.mul p.1), acc.2.2.add (p.2.mul p.2)))
    (Frac.zero, Frac.zero, Frac.zero)

/-- Source `_cosineSimilarity` (lines 553–568), with the value
`dot/(√normA·√normB)` represented as the score `(dot, normA*normB)`. -/
def cosineSimilarity (a b : List Frac) : Score :=
  if a.length ≠ b.length then ⟨Frac.zero, Frac.one⟩
  else
    let t := dotAndNorms a b
    if Frac.beq t.2.1 Frac.zero || Frac.beq t.2.2 Frac.zero then ⟨Frac.zero, Frac.one⟩
    else ⟨t.1, Frac.mul t.2.1 t.2.2⟩

/-- The primary similarity threshold `0.12` (line 133). -/
def simThreshold : Score := ⟨⟨12, 100, by decide⟩, Frac.one⟩

/-- The secondary threshold `0.25` used by `_findClosestAlternatives`
(line 459). -/
def altThreshold : Score := ⟨⟨25, 100, by decide⟩, Frac.one⟩

/-- A semantic match pushed at lines 136–142. -/
def mkSemanticResult (p : Product) (sim : Score) : SearchResult :=
  ⟨p.originalItem, sim, p.id, p.metadata, true, false, false, none⟩

/-- The similarity loop of `searchProducts` (lines 128–144): walk the vector
store; for entries above the threshold look the product up — a stale id whose
product is missing makes line 137 throw (`.error`), which the outer catch at
line 186 turns into the keyword fallback. -/
def collectSimilarities (products : List Product) (qv : List Frac) :
    List (Str × List Frac) → Except Unit (List SearchResult)
  | [] => .ok []
  | (pid, vec) :: rest =>
    let sim := cosineSimilarity qv vec
    if Score.ltB simThreshold sim then
      match products.find? (fun p => p.id = pid) with
      | none => .error ()
      | some p =>
        match collectSimilarities products qv rest with
        | .ok tl => .ok (mkSemanticResult p sim :: tl)
        | .error e => .error e
    else collectSimilarities products qv rest

/-- Descending-score order used by the sorts at lines 147 and 336. -/
def resultLe (x y : SearchResult) : Prop := Score.leB y.score x.score = true

instance resultLe.instDecidableRel : DecidableRel resultLe :=
  fun x y => inferInstanceAs (Decidable (Score.leB y.score x.score = true))

instance resultLe.instIsTrans : IsTrans SearchResult resultLe :=
  ⟨fun _ _ _ h1 h2 => Score.leB_trans h2 h1⟩

instance resultLe.instIsTotal : IsTotal SearchResult resultLe :=
  ⟨fun a b => (Score.leB_total b.score a.score).elim Or.inl Or.inr⟩

/-- JavaScript `sort((a, b) => b.score - a.score)`: a stable descending sort. -/
def sortResultsDesc (rs : List SearchResult) : List SearchResult :=
  rs.insertionSort resultLe

/-- A keyword match pushed at lines 325–332. -/
def mkKeywordResult (p : Product) (k : ℕ) : SearchResult :=
  ⟨p.originalItem, ⟨Frac.ofInt (k : ℤ), Frac.one⟩, p.id, p.metadata, false, true, false, none⟩

/-- Source `_fallbackKeywordSearch` (lines 289–341). -/
def fallbackKeywordSearch (st : ServiceState) (query : Str) (maxResults : ℕ) :
    List SearchResult :=
  let ks := keywordsOf query
  let results := st.products.filterMap (fun p =>
    let score := keywordScore ks (lowerStr p.name)
    if 0 < score then some (mkKeywordResult p score) else none)
  (sortResultsDesc results).take maxResults

/-- Source `_filterByExactModel` (lines 343–366; the second definition in the
class body, which in JavaScript overrides the first). -/
def filterByExactModel (results : List SearchResult) (targetModel : Str) :
    List SearchResult :=
  results.filter (fun item =>
    let deviceModel := lowerStr item.metadata.deviceModel
    let targetLower := lowerStr targetModel
    if targetModel = "iphone 14".data then
      containsSub deviceModel "iphone 14".data &&
        !(containsSub deviceModel "pro".data) && !(containsSub deviceModel "plus".data)
    else if targetModel = "iphone 14 pro".data then
      containsSub deviceModel "iphone 14".data &&
        containsSub deviceModel "pro".data && !(containsSub deviceModel "max".data)
    else containsSub deviceModel targetLower)

/-- Source `_findClosestAlternatives` (lines 450–461). -/
def findClosestAlternatives (similarities : List SearchResult) (requestedModel : Str) :
    List SearchResult :=
  let requestedBrand := extractBrand requestedModel
  let requestedService := extractServiceFromQuery requestedModel
  similarities.filter (fun item =>
    decide (item.metadata.brand = requestedBrand) ||
      decide (item.metadata.serviceType = requestedService) ||
      Score.ltB altThreshold item.score)

/-- The flagging loop at lines 174–177. -/
def markApproximate (m : Str) (r : SearchResult) : SearchResult :=
  { r with isApproximate := true, exactModelRequested := some m }

/-- Source `searchProducts` (lines 110–190), on an initialized state and an
embedding oracle; the `try/catch` at lines 111 and 186–189 makes any error in
the semantic pass answer with the keyword fallback. -/
def searchProducts (st : ServiceState) (oracle : Str → Option (List Frac))
    (query : Str) (maxResults : ℕ) : List SearchResult :=
  if st.products.isEmpty then []
  else
    match oracle query with
    | none => fallbackKeywordSearch st query maxResults
    | some qv =>
      match collectSimilarities st.products qv st.vectorStore with
      | .error _ => fallbackKeywordSearch st query maxResults
      | .ok raw =>
        let similarities := sortResultsDesc raw
        if similarities.isEmpty then fallbackKeywordSearch st query maxResults
        else
          let deviceModel := extractExactDeviceModel query
          if deviceModel = unknownStr then similarities.take maxResults
          else
            let exactMatches := filterByExactModel similarities deviceModel
            if exactMatches.isEmpty then
              ((findClosestAlternatives similarities deviceModel).map
                (markApproximate deviceModel)).take maxResults
            else exactMatches.take maxResults


/-- Cell cleanup of `_loadCSVData`: `v.trim().replace(/"/g, '')`. -/
def removeQuotes (s : Str) : Str := s.filter (fun c => c ≠ '\"')

/-- Splits one CSV line into cleaned cells (lines 65 and 69). -/
def splitCells (line : Str) : List Str :=
  (line.splitOn ',').map (fun v => removeQuotes (trimStr v))

/-- The row object built at lines 76–79: `item[header] = values[index] || ''`.
The pairs are kept in reverse header order so that first-match lookup
(`itemGet`) sees the last assignment, as a JavaScript object does when headers
repeat. -/
def buildItem (headers values : List Str) : Item :=
  ((headers.enum).map (fun hi => (hi.2, values.getD hi.1 []))).reverse

/-- Id sanitization of line 83:
`name.replace(/[^a-zA-Z0-9]/g, '_').substring(0, 30)`. -/
def sanitizeId (s : Str) : Str :=
  (s.map (fun c => if c.isAlphanum then c else '_')).take 30

/-- Product id generation of line 83. -/
def productId (i : ℕ) (productName : Str) : Str :=
  "product_".data ++ (Nat.repr i).data ++ "_".data ++ sanitizeId productName

/-- Metadata extraction of lines 86–93. -/
def mkMetadata (productName : Str) (i : ℕ) (price : Frac) : Metadata :=
  ⟨extractBrand productName, extractDeviceFromName productName,
    extractServiceType productName, extractQualityType productName, i,
    Frac.blt Frac.zero price⟩

/-- The `pricingData` object (line 106). -/
structure PricingData where
  items : List Item
  headers : List Str

/-- One pass of the row loop of `_loadCSVData` (lines 68–104) on the pair
(line index `i ≥ 1`, raw line): `none` when `values[0]` is falsy or blank. -/
def loadRow (headers : List Str) (il : ℕ × Str) : Option (Item × Product) :=
  let values := splitCells il.2
  let v0 := values.headD []
  if v0.isEmpty || (trimStr v0).isEmpty then none
  else
    let productName := trimStr v0
    let price := parsePrice (values.get? 1)
    let item := buildItem headers values
    some (item, ⟨productId il.1 productName, productName, price,
      mkMetadata productName il.1 price, item⟩)

/-- Source `_loadCSVData` (lines 53–108) on the raw CSV text: split on
newlines, drop blank lines, fail when fewer than two lines remain, then build
one item and one product per row whose first cell is non-blank. -/
def loadCSVData (csv : Str) : Except Str (PricingData × List Product) :=
  let lines := (csv.splitOn '\n').filter (fun l => (trimStr l).isEmpty = false)
  if lines.length < 2 then .error "Invalid CSV: no data rows".data
  else
    let headers := splitCells (lines.headD [])
    let rowPairs := (lines.enum.drop 1).filterMap (loadRow headers)
    .ok (⟨rowPairs.map Prod.fst, headers⟩, rowPairs.map Prod.snd)

/-- JavaScript `Map.set`: overwrite an existing key in place, otherwise append
in insertion order. -/
def setEntry (store : List (Str × List Frac)) (key : Str) (val : List Frac) :
    List (Str × List Frac) :=
  if store.any (fun e => e.1 = key) then
    store.map (fun e => if e.1 = key then (key, val) else e)
  else store ++ [(key, val)]

/-- JavaScript `Map.has` on the vector store. -/
def storeHasKey (store : List (Str × List Frac)) (key : Str) : Bool :=
  store.any (fun e => e.1 = key)

/-- Source `_generateVectorsForProducts` (lines 408–438): exactly one
embedding-provider call per product (batch grouping and delays do not change
the call count); the vector is stored only when the call succeeds.  Returns
the new store and the number of provider calls made. -/
def generateVectorsForProducts (oracle : Str → Option (List Frac)) :
    List Product → List (Str × List Frac) → List (Str × List Frac) × ℕ
  | [], store => (store, 0)
  | p :: ps, store =>
    match oracle p.name with
    | some e =>
      let r := generateVectorsForProducts oracle ps (setEntry store p.id e)
      (r.1, r.2 + 1)
    | none =>
      let r := generateVectorsForProducts oracle ps store
      (r.1, r.2 + 1)

/-- Source `_loadOrGenerateVectorStore` (lines 368–406): with a cache file the
store is rebuilt from it and vectors are generated only for products whose id
is absent (lines 383–393, returning early with no generation when none are
new); without a cache file all products are vectorized.  Returns the store,
the cache written by `_saveVectorCache` (when a generation pass ran), and the
number of provider calls. -/
def loadOrGenerateVectorStore (oracle : Str → Option (List Frac))
    (ps : List Product) (cacheFile : Option (List (Str × List Frac))) :
    List (Str × List Frac) × Option (List (Str × List Frac)) × ℕ :=
  match cacheFile with
  | some cached =>
    let store := cached.foldl (fun acc e => setEntry acc e.1 e.2) []
    let newProducts := ps.filter (fun p => !(storeHasKey store p.id))
    if newProducts.isEmpty then (store, none, 0)
    else
      let g := generateVectorsForProducts oracle newProducts store
      (g.1, some g.1, g.2)
  | none =>
    let g := generateVectorsForProducts oracle ps []
    (g.1, some g.1, g.2)

/-- The fallback `pricingData` installed by the `catch` of `initialize`
(line 48). -/
def emptyPricingData : PricingData := ⟨[], ["Prod".data, "PUBLICO TIENDA".data]⟩

/-- Source `initialize` (lines 30–51): a missing CSV file (`csvFile = none`,
line 55) or a parse failure is swallowed — the service ends initialized with
the empty pricing data and no products (`_loadCSVData` throws before
populating the maps). -/
def initializeState (csvFile : Option Str)
    (cacheFile : Option (List (Str × List Frac)))
    (oracle : Str → Option (List Frac)) : ServiceState × PricingData :=
  match csvFile with
  | none => (⟨[], []⟩, emptyPricingData)
  | some csv =>
    match loadCSVData csv with
    | .error _ => (⟨[], []⟩, emptyPricingData)
    | .ok pr =>
      let v := loadOrGenerateVectorStore oracle pr.2 cacheFile
      (⟨pr.2, v.1⟩, pr.1)

/-- `searchProducts` as called on a fresh service: `initialize` first
(line 112), then the search proper. -/
def searchProductsFromInit (csvFile : Option Str)
    (cacheFile : Option (List (Str × List Frac)))
    (oracle : Str → Option (List Frac)) (query : Str) (maxResults : ℕ) :
    List SearchResult :=
  searchProducts (initializeState csvFile cacheFile oracle).1 oracle query maxResults


/-- The non-blank input lines the loader keeps (line 59). -/
def nonBlankLines (csv : Str) : List Str :=
  (csv.splitOn '\n').filter (fun l => (trimStr l).isEmpty = false)

/-- Whether the loader fails (throws) on the given CSV text. -/
def loadFails (csv : Str) : Bool :=
  match loadCSVData csv with
  | .error _ => true
  | .ok _ => false

/-- The items the loader produces (empty when it fails). -/
def loadedItems (csv : Str) : List Item :=
  match loadCSVData csv with
  | .error _ => []
  | .ok pr => pr.1.items

/-- The row guard of line 71: `values[0] && values[0].trim()`. -/
def rowTruthy (il : ℕ × Str) : Bool :=
  let v0 := (splitCells il.2).headD []
  !(v0.isEmpty || (trimStr v0).isEmpty)

theorem loadRow_isSome (headers : List Str) (il : ℕ × Str) :
    (loadRow headers il).isSome = rowTruthy il := by
  rw [loadRow, rowTruthy]
  split
  next h =>
    rw [h]
    rfl
  next h =>
    rw [Bool.not_eq_true] at h
    rw [h]
    rfl

theorem length_filterMap_eq_countP {α β : Type} (f : α → Option β) (l : List α) :
    (l.filterMap f).length = l.countP (fun a => (f a).isSome) := by
  induction l with
  | nil => rfl
  | cons a l ih =>
    cases h : f a <;>
      simp [List.filterMap_cons, h, ih, List.countP_cons]

/-- C7 counterexample: on an input with a header row and one data row whose
first column is empty, the loader does not fail — it succeeds with zero
items — so "fails … when the first column is empty for every data row" is
false at this concrete input. -/
theorem loader_no_error_on_empty_first_column :
    loadFails "Prod,PUBLICO TIENDA\n,100".data = false ∧
    loadedItems "Prod,PUBLICO TIENDA\n,100".data = [] := by
  decide

/-- C7 amended: the loader fails exactly when fewer than two non-blank lines
are present; an input whose data rows all have an empty first column loads
without error into zero items; on success every row with a non-blank first
cell becomes exactly one catalog item. -/
theorem loader_error_iff_too_few_lines :
    (∀ csv : Str, loadFails csv = true ↔ (nonBlankLines csv).length < 2) ∧
    (∀ csv : Str, loadFails csv = false →
      (loadedItems csv).length = ((nonBlankLines csv).enum.drop 1).countP rowTruthy) ∧
    loadFails "Prod,PUBLICO TIENDA\n,100".data = false ∧
    loadedItems "Prod,PUBLICO TIENDA\n,100".data = [] := by
  refine ⟨?_, ?_, by decide, by decide⟩
  · intro csv
    by_cases h : (nonBlankLines csv).length < 2
    · have h2 := h
      rw [nonBlankLines] at h2
      simp only [loadFails, loadCSVData]
      rw [if_pos h2]
      simpa using h
    · have h2 := h
      rw [nonBlankLines] at h2
      simp only [loadFails, loadCSVData]
      rw [if_neg h2]
      simpa using h
  · intro csv h
    by_cases h2 : (nonBlankLines csv).length < 2
    · exfalso
      have h3 := h2
      rw [nonBlankLines] at h3
      simp only [loadFails, loadCSVData] at h
      rw [if_pos h3] at h
      exact absurd h (by decide)
    · have h3 := h2
      rw [nonBlankLines] at h3
      simp only [loadedItems, loadCSVData]
      rw [if_neg h3]
      simp only [List.length_map, length_filterMap_eq_countP]
      rw [nonBlankLines]
      exact List.countP_congr (fun il _ => by rw [loadRow_isSome])


theorem loader_error_iff_too_few_lines_witness :
    loadFails "Prod,PUBLICO TIENDA\nPANTALLA IPHONE 13,100".data = false ∧
    (loadedItems "Prod,PUBLICO TIENDA\nPANTALLA IPHONE 13,100".data).length =
      ((nonBlankLines "Prod,PUBLICO TIENDA\nPANTALLA IPHONE 13,100".data).enum.drop 1).countP
        rowTruthy :=
  ⟨by decide, loader_error_iff_too_few_lines.2.1 _ (by decide)⟩

theorem storeHasKey_setEntry_mono (st : List (Str × List Frac)) (k2 : Str)
    (v : List Frac) (k : Str) (h : storeHasKey st k = true) :
    storeHasKey (setEntry st k2 v) k = true := by
  rw [storeHasKey, List.any_eq_true] at h
  obtain ⟨e, he, hk⟩ := h
  rw [storeHasKey, setEntry]
  split
  · rw [List.any_eq_true]
    by_cases h2 : e.1 = k2
    · refine ⟨(k2, v), List.mem_map.2 ⟨e, he, by rw [if_pos h2]⟩, ?_⟩
      simp only [decide_eq_true_iff] at hk ⊢
      rw [← h2, hk]
    · exact ⟨e, List.mem_map.2 ⟨e, he, by rw [if_neg h2]⟩, hk⟩
  · rw [List.any_eq_true]
    exact ⟨e, List.mem_append_left _ he, hk⟩

theorem storeHasKey_setEntry_self (st : List (Str × List Frac)) (k : Str)
    (v : List Frac) : storeHasKey (setEntry st k v) k = true := by
  rw [storeHasKey, setEntry]
  split
  next h =>
    rw [List.any_eq_true] at h ⊢
    obtain ⟨e, he, hk⟩ := h
    simp only [decide_eq_true_iff] at hk
    exact ⟨(k, v), List.mem_map.2 ⟨e, he, by rw [if_pos hk]⟩, by simp⟩
  next h =>
    rw [List.any_eq_true]
    exact ⟨(k, v), List.mem_append_right _ (List.mem_singleton.2 rfl), by simp⟩

theorem storeHasKey_generate_mono (oracle : Str → Option (List Frac))
    (ps : List Product) (store : List (Str × List Frac)) (k : Str)
    (h : storeHasKey store k = true) :
    storeHasKey (generateVectorsForProducts oracle ps store).1 k = true := by
  induction ps generalizing store with
  | nil => exact h
  | cons p ps ih =>
    rw [generateVectorsForProducts]
    cases ho : oracle p.name with
    | some e => exact ih (setEntry store p.id e) (storeHasKey_setEntry_mono _ _ _ _ h)
    | none => exact ih store h

theorem storeHasKey_generate_adds (oracle : Str → Option (List Frac))
    (ps : List Product) (store : List (Str × List Frac)) (p : Product)
    (hp : p ∈ ps) (ho : (oracle p.name).isSome = true) :
    storeHasKey (generateVectorsForProducts oracle ps store).1 p.id = true := by
  induction ps generalizing store with
  | nil => exact absurd hp (List.not_mem_nil p)
  | cons q ps ih =>
    rw [generateVectorsForProducts]
    rcases List.mem_cons.1 hp with hq | hmem
    · subst hq
      cases ho2 : oracle p.name with
      | some e =>
        exact storeHasKey_generate_mono _ _ _ _ (storeHasKey_setEntry_self _ _ _)
      | none =>
        rw [ho2] at ho
        exact absurd ho (by simp)
    · cases ho2 : oracle q.name with
      | some e => exact ih _ hmem
      | none => exact ih _ hmem

theorem storeHasKey_foldSet_mono (cache : List (Str × List Frac))
    (acc : List (Str × List Frac)) (k : Str) (h : storeHasKey acc k = true) :
    storeHasKey (cache.foldl (fun a e => setEntry a e.1 e.2) acc) k = true := by
  induction cache generalizing acc with
  | nil => exact h
  | cons e cache ih =>
    rw [List.foldl_cons]
    exact ih _ (storeHasKey_setEntry_mono _ _ _ _ h)

theorem storeHasKey_foldSet (cache acc : List (Str × List Frac))
    (e : Str × List Frac) (he : e ∈ cache) :
    storeHasKey (cache.foldl (fun a e2 => setEntry a e2.1 e2.2) acc) e.1 = true := by
  induction cache generalizing acc with
  | nil => exact absurd he (List.not_mem_nil e)
  | cons f cache ih =>
    rw [List.foldl_cons]
    rcases List.mem_cons.1 he with hq | hmem
    · subst hq
      exact storeHasKey_foldSet_mono _ _ _ (storeHasKey_setEntry_self _ _ _)
    · exact ih _ hmem

/-- C8: the embedding index build is idempotent.  When the first build pass
succeeds for every product, the cache it persists contains every product id,
so a second `_loadOrGenerateVectorStore` run on the unchanged catalog finds no
new products and issues zero embedding-provider calls. -/
theorem vector_store_rebuild_makes_no_calls (oracle : Str → Option (List Frac))
    (ps : List Product) (cache : List (Str × List Frac))
    (hAll : ∀ p ∈ ps, (oracle p.name).isSome = true)
    (hCache : (loadOrGenerateVectorStore oracle ps none).2.1 = some cache) :
    (loadOrGenerateVectorStore oracle ps (some cache)).2.2 = 0 := by
  have hc : cache = (generateVectorsForProducts oracle ps []).1 := by
    rw [loadOrGenerateVectorStore] at hCache
    exact (Option.some_injective _ hCache).symm
  have hkeys : ∀ p ∈ ps,
      storeHasKey (cache.foldl (fun a e2 => setEntry a e2.1 e2.2) []) p.id = true := by
    intro p hp
    have h1 : storeHasKey cache p.id = true := by
      rw [hc]
      exact storeHasKey_generate_adds oracle ps [] p hp (hAll p hp)
    rw [storeHasKey, List.any_eq_true] at h1
    obtain ⟨e, he, hk⟩ := h1
    simp only [decide_eq_true_iff] at hk
    rw [← hk]
    exact storeHasKey_foldSet cache [] e he
  rw [loadOrGenerateVectorStore]
  have hempty :
      (ps.filter (fun p =>
        !(storeHasKey (cache.foldl (fun a e2 => setEntry a e2.1 e2.2) []) p.id))).isEmpty
        = true := by
    rw [List.isEmpty_eq_true, List.filter_eq_nil_iff]
    intro p hp
    rw [hkeys p hp]
    simp
  rw [if_pos hempty]

/-- A one-product catalog used to witness concrete runs. -/
def productW : Product :=
  ⟨"p1".data, "PANTALLA IPHONE 13 ORIGINAL".data, Frac.one,
    mkMetadata "PANTALLA IPHONE 13 ORIGINAL".data 1 Frac.one, []⟩

theorem vector_store_rebuild_makes_no_calls_witness :
    (loadOrGenerateVectorStore (fun _ => some [Frac.one]) [productW]
      (some [(productW.id, [Frac.one])])).2.2 = 0 :=
  vector_store_rebuild_makes_no_calls (fun _ => some [Frac.one]) [productW]
    [(productW.id, [Frac.one])] (by intro p hp; rfl) rfl


theorem containsSub_isInfix_iff (hay needle : Str) :
    containsSub hay needle = true ↔ needle <:+: hay := by
  rw [containsSub, List.any_eq_true]
  constructor
  · rintro ⟨t, ht, hp⟩
    exact List.infix_iff_prefix_suffix.2
      ⟨t, List.isPrefixOf_iff_prefix.1 hp, (List.mem_tails _ _).1 ht⟩
  · intro h
    obtain ⟨t, hp, hs⟩ := List.infix_iff_prefix_suffix.1 h
    exact ⟨t, (List.mem_tails _ _).2 hs, List.isPrefixOf_iff_prefix.2 hp⟩

theorem le_keywordScore_foldl (text : Str) (ks : List Str) (acc : ℕ) :
    acc ≤ ks.foldl (fun a k => if containsSub text k then a + 1 else a) acc := by
  induction ks generalizing acc with
  | nil => exact le_refl acc
  | cons k ks ih =>
    rw [List.foldl_cons]
    refine le_trans ?_ (ih _)
    split
    · exact Nat.le_succ acc
    · exact le_refl acc

theorem keywordScore_pos_of_mem (ks : List Str) (text : Str) (k : Str)
    (hk : k ∈ ks) (hc : containsSub text k = true) :
    0 < keywordScore ks text := by
  rw [keywordScore]
  have haux : ∀ ks2 : List Str, ∀ acc : ℕ, k ∈ ks2 →
      acc < ks2.foldl (fun a k2 => if containsSub text k2 then a + 1 else a) acc := by
    intro ks2
    induction ks2 with
    | nil => intro acc h; exact absurd h (List.not_mem_nil k)
    | cons a ks2 ih =>
      intro acc h
      rw [List.foldl_cons]
      rcases List.mem_cons.1 h with hq | hmem
      · subst hq
        rw [if_pos hc]
        exact lt_of_lt_of_le (Nat.lt_succ_self acc) (le_keywordScore_foldl _ _ _)
      · refine lt_of_le_of_lt ?_ (ih _ hmem)
        split
        · exact Nat.le_succ acc
        · exact le_refl acc
  exact haux ks 0 hk

/-- The number of products the keyword fallback scores positively. -/
def keywordHits (st : ServiceState) (query : Str) : ℕ :=
  st.products.countP (fun q => decide (0 < keywordScore (keywordsOf query) (lowerStr q.name)))

theorem mem_fallback_of_hit (st : ServiceState) (query : Str) (lim : ℕ) (p : Product)
    (hp : p ∈ st.products)
    (hscore : 0 < keywordScore (keywordsOf query) (lowerStr p.name))
    (hlen : keywordHits st query ≤ lim) :
    ∃ r ∈ fallbackKeywordSearch st query lim, r.productId = p.id := by
  rw [fallbackKeywordSearch]
  have hmemraw : mkKeywordResult p (keywordScore (keywordsOf query) (lowerStr p.name)) ∈
      st.products.filterMap (fun q =>
        if 0 < keywordScore (keywordsOf query) (lowerStr q.name) then
          some (mkKeywordResult q (keywordScore (keywordsOf query) (lowerStr q.name)))
        else none) := by
    refine List.mem_filterMap.2 ⟨p, hp, ?_⟩
    rw [if_pos hscore]
  have hlenraw : (st.products.filterMap (fun q =>
      if 0 < keywordScore (keywordsOf query) (lowerStr q.name) then
        some (mkKeywordResult q (keywordScore (keywordsOf query) (lowerStr q.name)))
      else none)).length ≤ lim := by
    rw [length_filterMap_eq_countP]
    refine le_trans (le_of_eq (List.countP_congr ?_)) hlen
    intro q _
    constructor
    · intro h
      split at h
      · next h2 => simp [h2]
      · exact absurd h (by simp)
    · intro h
      rw [decide_eq_true_iff] at h
      rw [if_pos h]
      rfl
  have hperm := List.perm_insertionSort resultLe (st.products.filterMap (fun q =>
      if 0 < keywordScore (keywordsOf query) (lowerStr q.name) then
        some (mkKeywordResult q (keywordScore (keywordsOf query) (lowerStr q.name)))
      else none))
  have hmemsort := hperm.mem_iff.2 hmemraw
  have hlensort : (sortResultsDesc (st.products.filterMap (fun q =>
      if 0 < keywordScore (keywordsOf query) (lowerStr q.name) then
        some (mkKeywordResult q (keywordScore (keywordsOf query) (lowerStr q.name)))
      else none))).length ≤ lim := by
    rw [sortResultsDesc, hperm.length_eq]
    exact hlenraw
  rw [List.take_of_length_le hlensort]
  exact ⟨_, hmemsort, rfl⟩

theorem fallback_of_nil (st : ServiceState) (h : st.products = []) (query : Str)
    (lim : ℕ) : fallbackKeywordSearch st query lim = [] := by
  rw [fallbackKeywordSearch, h]
  simp [sortResultsDesc]

/-- C4: when the embedding provider fails (the query embedding is `null`),
`searchProducts` answers with the keyword fallback; and with a provider that
fails on every call, `searchProducts("iPhone 13 bateria")` contains a result
for every catalog product whose name contains both `iphone 13` and a battery
synonym (`bateria`/`battery`), provided the keyword matches fit in the result
limit. -/
theorem searchProducts_provider_failure_fallback :
    (∀ st : ServiceState, ∀ oracle query lim, oracle query = none →
      searchProducts st oracle query lim = fallbackKeywordSearch st query lim) ∧
    (∀ st : ServiceState, ∀ lim, ∀ p ∈ st.products,
      keywordHits st "iPhone 13 bateria".data ≤ lim →
      containsSub (lowerStr p.name) "iphone 13".data = true →
      (containsSub (lowerStr p.name) "bateria".data = true ∨
        containsSub (lowerStr p.name) "battery".data = true) →
      ∃ r ∈ searchProducts st (fun _ => none) "iPhone 13 bateria".data lim,
        r.productId = p.id) := by
  have part1 : ∀ st : ServiceState, ∀ oracle query lim, oracle query = none →
      searchProducts st oracle query lim = fallbackKeywordSearch st query lim := by
    intro st oracle query lim hq
    cases hemp : st.products.isEmpty with
    | true =>
      rw [searchProducts, if_pos (by rw [hemp]),
        fallback_of_nil st (List.isEmpty_iff.1 hemp)]
    | false =>
      rw [searchProducts, if_neg (by rw [hemp]; exact Bool.false_ne_true), hq]
  refine ⟨part1, ?_⟩
  intro st lim p hp hlen h13 hbat
  rw [part1 st _ _ lim rfl]
  refine mem_fallback_of_hit st _ lim p hp ?_ hlen
  have hks : "iphone".data ∈ keywordsOf "iPhone 13 bateria".data := by decide
  have hcontains : containsSub (lowerStr p.name) "iphone".data = true := by
    rw [containsSub_isInfix_iff] at h13 ⊢
    exact List.IsInfix.trans ((List.isPrefixOf_iff_prefix.1 (by decide)).isInfix) h13
  exact keywordScore_pos_of_mem _ _ _ hks hcontains

def productC4 : Product :=
  ⟨"p1".data, "BATERIA IPHONE 13".data, Frac.one,
    mkMetadata "BATERIA IPHONE 13".data 1 Frac.one,
    [("Prod".data, "BATERIA IPHONE 13".data)]⟩

theorem searchProducts_provider_failure_fallback_witness :
    ∃ r ∈ searchProducts ⟨[productC4], []⟩ (fun _ => none)
      "iPhone 13 bateria".data 20, r.productId = productC4.id :=
  searchProducts_provider_failure_fallback.2 ⟨[productC4], []⟩ 20 productC4
    (List.mem_singleton.2 rfl) (by decide) (by decide) (Or.inl (by decide))


def productC5 : Product :=
  ⟨"p1".data, "PANTALLA IPHONE 14".data, Frac.one,
    mkMetadata "PANTALLA IPHONE 14".data 1 Frac.one,
    [("Prod".data, "PANTALLA IPHONE 14".data)]⟩

def stC5 : ServiceState := ⟨[productC5], [("p1".data, [Frac.one, Frac.zero])]⟩

def oracleC5 : Str → Option (List Frac) := fun _ => some [Frac.zero, Frac.one]

/-- C5 counterexample: on a non-empty catalog, a query whose embedding is
orthogonal to the stored vector (zero similarity, below the threshold) and
whose keywords match no product name makes `searchProducts` return the empty
list — refuting "a query always returns a non-empty result set when the
catalog is non-empty". -/
theorem searchProducts_empty_on_nonempty_catalog :
    (searchProducts stC5 oracleC5 "hola".data 20).isEmpty = true ∧
    stC5.products.isEmpty = false := by
  decide

/-- C5 amended: when the semantic similarity filter leaves zero entries,
`searchProducts` falls back to keyword search (rather than returning the
empty semantic list directly); the overall result can nevertheless be empty
when no catalog item contains any query keyword. -/
theorem searchProducts_empty_filter_falls_back (st : ServiceState)
    (oracle : Str → Option (List Frac)) (query : Str) (lim : ℕ) (qv : List Frac)
    (hq : oracle query = some qv)
    (hc : collectSimilarities st.products qv st.vectorStore = .ok []) :
    searchProducts st oracle query lim = fallbackKeywordSearch st query lim := by
  cases hemp : st.products.isEmpty with
  | true =>
    rw [searchProducts, if_pos (by rw [hemp]),
      fallback_of_nil st (List.isEmpty_iff.1 hemp)]
  | false =>
    rw [searchProducts, if_neg (by rw [hemp]; exact Bool.false_ne_true), hq]
    dsimp only
    rw [hc]
    rfl

theorem searchProducts_empty_filter_falls_back_witness :
    searchProducts stC5 oracleC5 "hola".data 20 =
      fallbackKeywordSearch stC5 "hola".data 20 :=
  searchProducts_empty_filter_falls_back stC5 oracleC5 "hola".data 20
    [Frac.zero, Frac.one] rfl rfl

/-- C10: `searchProducts` never throws: a failed initialization (missing CSV
file or a CSV parse error) leaves an empty catalog and the search returns the
empty list; an empty catalog returns the empty list; and an error raised
during the semantic pass (a vector-store id with no matching product) is
caught and answered with the keyword-fallback result. -/
theorem searchProducts_never_throws :
    (∀ cache oracle query lim,
      searchProductsFromInit none cache oracle query lim = []) ∧
    (∀ csv cache oracle query lim e, loadCSVData csv = .error e →
      searchProductsFromInit (some csv) cache oracle query lim = []) ∧
    (∀ st : ServiceState, ∀ oracle query lim, st.products.isEmpty = true →
      searchProducts st oracle query lim = []) ∧
    (∀ st : ServiceState, ∀ oracle query lim qv, oracle query = some qv →
      (collectSimilarities st.products qv st.vectorStore).isOk = false →
      searchProducts st oracle query lim = fallbackKeywordSearch st query lim) := by
  refine ⟨fun cache oracle query lim => rfl, ?_, ?_, ?_⟩
  · intro csv cache oracle query lim e he
    rw [searchProductsFromInit, initializeState, he]
    rfl
  · intro st oracle query lim he
    rw [searchProducts, if_pos (by rw [he])]
  · intro st oracle query lim qv hq hcol
    cases hc : collectSimilarities st.products qv st.vectorStore with
    | ok raw =>
      rw [hc] at hcol
      exact Bool.noConfusion hcol
    | error err =>
      cases hemp : st.products.isEmpty with
      | true =>
        rw [searchProducts, if_pos (by rw [hemp]),
          fallback_of_nil st (List.isEmpty_iff.1 hemp)]
      | false =>
        rw [searchProducts, if_neg (by rw [hemp]; exact Bool.false_ne_true), hq]
        dsimp only
        rw [hc]

def productC10 : Product :=
  ⟨"p1".data, "PANTALLA IPHONE 14".data, Frac.one,
    mkMetadata "PANTALLA IPHONE 14".data 1 Frac.one,
    [("Prod".data, "PANTALLA IPHONE 14".data)]⟩

/-- A state whose vector store holds a stale id with no matching product; the
semantic pass throws on it. -/
def stC10 : ServiceState := ⟨[productC10], [("ghost".data, [Frac.one])]⟩

theorem searchProducts_never_throws_witness :
    searchProductsFromInit none none (fun _ => none) "iPhone".data 5 = [] ∧
    searchProductsFromInit (some "solo una linea".data) none (fun _ => none)
      "iPhone".data 5 = [] ∧
    searchProducts (⟨[], []⟩ : ServiceState) (fun _ => none) "iPhone".data 5 = [] ∧
    searchProducts stC10 (fun _ => some [Frac.one]) "hola".data 5 =
      fallbackKeywordSearch stC10 "hola".data 5 :=
  ⟨searchProducts_never_throws.1 none (fun _ => none) "iPhone".data 5,
   searchProducts_never_throws.2.1 "solo una linea".data none (fun _ => none)
     "iPhone".data 5 "Invalid CSV: no data rows".data rfl,
   searchProducts_never_throws.2.2.1 ⟨[], []⟩ (fun _ => none) "iPhone".data 5 rfl,
   searchProducts_never_throws.2.2.2 stC10 (fun _ => some [Frac.one]) "hola".data 5
     [Frac.one] rfl rfl⟩


theorem collect_products_nil (qv : List Frac) (store : List (Str × List Frac))
    (raw : List SearchResult)
    (h : collectSimilarities [] qv store = .ok raw) : raw = [] := by
  induction store generalizing raw with
  | nil =>
    rw [collectSimilarities] at h
    exact (Except.ok.inj h).symm
  | cons e store ih =>
    rw [collectSimilarities] at h
    split at h
    · simp only [List.find?] at h
      exact Except.noConfusion h
    · exact ih raw h

theorem mem_collect_semantic (ps : List Product) (qv : List Frac)
    (store : List (Str × List Frac)) (raw : List SearchResult) (r : SearchResult)
    (h : collectSimilarities ps qv store = .ok raw) (hr : r ∈ raw) :
    r.isApproximate = false ∧ r.exactModelRequested = none := by
  induction store generalizing raw with
  | nil =>
    rw [collectSimilarities] at h
    rw [← Except.ok.inj h] at hr
    exact absurd hr (List.not_mem_nil r)
  | cons e store ih =>
    rw [collectSimilarities] at h
    split at h
    · cases hf : ps.find? (fun p => p.1 = e.1) with
      | none =>
        rw [hf] at h
        exact Except.noConfusion h
      | some p =>
        rw [hf] at h
        cases hrec : collectSimilarities ps qv store with
        | error err =>
          rw [hrec] at h
          exact Except.noConfusion h
        | ok tl =>
          rw [hrec] at h
          rw [← Except.ok.inj h] at hr
          rcases List.mem_cons.1 hr with hq | hmem
          · subst hq
            exact ⟨rfl, rfl⟩
          · exact ih tl hrec hmem
    · exact ih raw h hr

theorem mem_fallback_keyword (st : ServiceState) (query : Str) (lim : ℕ)
    (r : SearchResult) (hr : r ∈ fallbackKeywordSearch st query lim) :
    r.isApproximate = false ∧ r.exactModelRequested = none := by
  rw [fallbackKeywordSearch] at hr
  have hr2 := List.mem_of_mem_take hr
  rw [sortResultsDesc] at hr2
  have hr3 := (List.perm_insertionSort resultLe _).mem_iff.1 hr2
  obtain ⟨p, hp, hsome⟩ := List.mem_filterMap.1 hr3
  dsimp only at hsome
  split at hsome
  · rw [← Option.some.inj hsome]
    exact ⟨rfl, rfl⟩
  · exact Option.noConfusion hsome

/-- Unfolds `searchProducts` on the path where the query embedding succeeds,
the semantic filter is non-empty, a device model is recognized, and exact
matches exist: the result is the truncated exact-match list. -/
theorem searchProducts_eq_exact_branch (st : ServiceState)
    (oracle : Str → Option (List Frac)) (query : Str) (lim : ℕ)
    (qv : List Frac) (raw : List SearchResult)
    (hq : oracle query = some qv)
    (hc : collectSimilarities st.products qv st.vectorStore = .ok raw)
    (hm : extractExactDeviceModel query ≠ unknownStr)
    (hf : (filterByExactModel (sortResultsDesc raw)
      (extractExactDeviceModel query)).isEmpty = false) :
    searchProducts st oracle query lim =
      (filterByExactModel (sortResultsDesc raw)
        (extractExactDeviceModel query)).take lim := by
  have hraw : raw ≠ [] := by
    intro h0
    subst h0
    exact Bool.noConfusion hf
  have hne : st.products ≠ [] := by
    intro h0
    rw [h0] at hc
    exact hraw (collect_products_nil qv st.vectorStore raw hc)
  have hempB : st.products.isEmpty = false := by
    cases hp : st.products.isEmpty with
    | true => exact absurd (List.isEmpty_iff.1 hp) hne
    | false => rfl
  have hsort : (sortResultsDesc raw).isEmpty = false := by
    cases hs : (sortResultsDesc raw).isEmpty with
    | true =>
      have h1 : sortResultsDesc raw = [] := List.isEmpty_iff.1 hs
      have h2 : raw = [] := by
        have := List.perm_insertionSort resultLe raw
        rw [sortResultsDesc] at h1
        rw [h1] at this
        exact (List.Perm.nil_eq this).symm
      exact absurd h2 hraw
    | false => rfl
  rw [searchProducts, if_neg (by rw [hempB]; exact Bool.false_ne_true), hq]
  dsimp only
  rw [hc]
  dsimp only
  rw [if_neg (by rw [hsort]; exact Bool.false_ne_true), if_neg hm,
    if_neg (by rw [hf]; exact Bool.false_ne_true)]

/-- C2: with the semantic path taken (the query embedding succeeds) and at
least one exact-model item passing the similarity filter, the query
`iPhone 14 pantalla` returns only items whose device model is `iphone 14`
(no `pro`, no `plus`), and `iPhone 14 Pro pantalla` returns only `iphone 14
pro` items (no `max`, and no base models, whose device model lacks `pro`). -/
theorem searchProducts_exact_model_exclusion :
    (∀ st : ServiceState, ∀ oracle lim qv raw,
      oracle "iPhone 14 pantalla".data = some qv →
      collectSimilarities st.products qv st.vectorStore = .ok raw →
      (filterByExactModel (sortResultsDesc raw) "iphone 14".data).isEmpty = false →
      ∀ r ∈ searchProducts st oracle "iPhone 14 pantalla".data lim,
        containsSub (lowerStr r.metadata.deviceModel) "iphone 14".data = true ∧
        containsSub (lowerStr r.metadata.deviceModel) "pro".data = false ∧
        containsSub (lowerStr r.metadata.deviceModel) "plus".data = false) ∧
    (∀ st : ServiceState, ∀ oracle lim qv raw,
      oracle "iPhone 14 Pro pantalla".data = some qv →
      collectSimilarities st.products qv st.vectorStore = .ok raw →
      (filterByExactModel (sortResultsDesc raw) "iphone 14 pro".data).isEmpty = false →
      ∀ r ∈ searchProducts st oracle "iPhone 14 Pro pantalla".data lim,
        containsSub (lowerStr r.metadata.deviceModel) "iphone 14".data = true ∧
        containsSub (lowerStr r.metadata.deviceModel) "pro".data = true ∧
        containsSub (lowerStr r.metadata.deviceModel) "max".data = false) := by
  constructor
  · intro st oracle lim qv raw hq hc hf r hr
    have hm : extractExactDeviceModel "iPhone 14 pantalla".data = "iphone 14".data := by
      decide
    rw [searchProducts_eq_exact_branch st oracle _ lim qv raw hq hc
      (by rw [hm]; decide) (by rw [hm]; exact hf), hm] at hr
    have hp := (List.mem_filter.1 (List.mem_of_mem_take hr)).2
    dsimp only at hp
    rw [if_pos rfl] at hp
    simp only [Bool.and_eq_true, Bool.not_eq_true'] at hp
    exact ⟨hp.1.1, hp.1.2, hp.2⟩
  · intro st oracle lim qv raw hq hc hf r hr
    have hm : extractExactDeviceModel "iPhone 14 Pro pantalla".data =
        "iphone 14 pro".data := by decide
    rw [searchProducts_eq_exact_branch st oracle _ lim qv raw hq hc
      (by rw [hm]; decide) (by rw [hm]; exact hf), hm] at hr
    have hp := (List.mem_filter.1 (List.mem_of_mem_take hr)).2
    dsimp only at hp
    rw [if_neg (by decide), if_pos rfl] at hp
    simp only [Bool.and_eq_true, Bool.not_eq_true'] at hp
    exact ⟨hp.1.1, hp.1.2, hp.2⟩

def product14 : Product :=
  ⟨"p14".data, "PANTALLA IPHONE 14".data, Frac.one,
    mkMetadata "PANTALLA IPHONE 14".data 1 Frac.one,
    [("Prod".data, "PANTALLA IPHONE 14".data)]⟩

def product14pro : Product :=
  ⟨"p14p".data, "PANTALLA IPHONE 14 PRO".data, Frac.one,
    mkMetadata "PANTALLA IPHONE 14 PRO".data 2 Frac.one,
    [("Prod".data, "PANTALLA IPHONE 14 PRO".data)]⟩

/-- A catalog holding both an iPhone 14 and an iPhone 14 Pro screen item. -/
def stC2 : ServiceState :=
  ⟨[product14, product14pro],
    [("p14".data, [Frac.one]), ("p14p".data, [Frac.one])]⟩

def oracleC2 : Str → Option (List Frac) := fun _ => some [Frac.one]

theorem searchProducts_exact_model_exclusion_witness :
    (searchProducts stC2 oracleC2 "iPhone 14 pantalla".data 20).all
      (fun r => containsSub (lowerStr r.metadata.deviceModel) "iphone 14".data &&
        !(containsSub (lowerStr r.metadata.deviceModel) "pro".data) &&
        !(containsSub (lowerStr r.metadata.deviceModel) "plus".data)) = true ∧
    (searchProducts stC2 oracleC2 "iPhone 14 Pro pantalla".data 20).all
      (fun r => containsSub (lowerStr r.metadata.deviceModel) "iphone 14".data &&
        containsSub (lowerStr r.metadata.deviceModel) "pro".data &&
        !(containsSub (lowerStr r.metadata.deviceModel) "max".data)) = true := by
  constructor
  · rw [List.all_eq_true]
    intro r hr
    have h := searchProducts_exact_model_exclusion.1 stC2 oracleC2 20 [Frac.one] _
      rfl rfl (by decide) r hr
    rw [h.1, h.2.1, h.2.2]
    rfl
  · rw [List.all_eq_true]
    intro r hr
    have h := searchProducts_exact_model_exclusion.2 stC2 oracleC2 20 [Frac.one] _
      rfl rfl (by decide) r hr
    rw [h.1, h.2.1, h.2.2]
    rfl


/-- Unfolds `searchProducts` on the path where a device model is recognized
but no exact match survives: the result is the truncated, approximate-flagged
alternative list (lines 168–178). -/
theorem searchProducts_eq_alternatives_branch (st : ServiceState)
    (oracle : Str → Option (List Frac)) (query : Str) (lim : ℕ)
    (qv : List Frac) (raw : List SearchResult)
    (hq : oracle query = some qv)
    (hc : collectSimilarities st.products qv st.vectorStore = .ok raw)
    (hm : extractExactDeviceModel query ≠ unknownStr)
    (hsort : (sortResultsDesc raw).isEmpty = false)
    (hf : (filterByExactModel (sortResultsDesc raw)
      (extractExactDeviceModel query)).isEmpty = true) :
    searchProducts st oracle query lim =
      ((findClosestAlternatives (sortResultsDesc raw)
        (extractExactDeviceModel query)).map
        (markApproximate (extractExactDeviceModel query))).take lim := by
  have hraw : raw ≠ [] := by
    intro h0
    subst h0
    exact Bool.noConfusion hsort
  have hne : st.products ≠ [] := by
    intro h0
    rw [h0] at hc
    exact hraw (collect_products_nil qv st.vectorStore raw hc)
  have hempB : st.products.isEmpty = false := by
    cases hp : st.products.isEmpty with
    | true => exact absurd (List.isEmpty_iff.1 hp) hne
    | false => rfl
  rw [searchProducts, if_neg (by rw [hempB]; exact Bool.false_ne_true), hq]
  dsimp only
  rw [hc]
  dsimp only
  rw [if_neg (by rw [hsort]; exact Bool.false_ne_true), if_neg hm, if_pos hf]

theorem approx_implies_model_set (st : ServiceState)
    (oracle : Str → Option (List Frac)) (query : Str) (lim : ℕ)
    (r : SearchResult) (hr : r ∈ searchProducts st oracle query lim)
    (ha : r.isApproximate = true) : r.exactModelRequested.isSome = true := by
  rw [searchProducts] at hr
  split at hr
  · exact absurd hr (List.not_mem_nil r)
  · cases hq : oracle query with
    | none =>
      rw [hq] at hr
      have h := mem_fallback_keyword st query lim r hr
      rw [h.1] at ha
      exact Bool.noConfusion ha
    | some qv =>
      rw [hq] at hr
      dsimp only at hr
      cases hc : collectSimilarities st.products qv st.vectorStore with
      | error e =>
        rw [hc] at hr
        have h := mem_fallback_keyword st query lim r hr
        rw [h.1] at ha
        exact Bool.noConfusion ha
      | ok raw =>
        rw [hc] at hr
        dsimp only at hr
        split at hr
        · have h := mem_fallback_keyword st query lim r hr
          rw [h.1] at ha
          exact Bool.noConfusion ha
        · split at hr
          · have h2 := (List.perm_insertionSort resultLe raw).mem_iff.1
              (List.mem_of_mem_take hr)
            have h := mem_collect_semantic st.products qv st.vectorStore raw r hc h2
            rw [h.1] at ha
            exact Bool.noConfusion ha
          · split at hr
            · obtain ⟨r2, hmem2, hr2⟩ := List.mem_map.1 (List.mem_of_mem_take hr)
              rw [← hr2]
              rfl
            · have h3 := (List.mem_filter.1 (List.mem_of_mem_take hr)).1
              have h4 := (List.perm_insertionSort resultLe raw).mem_iff.1 h3
              have h := mem_collect_semantic st.products qv st.vectorStore raw r hc h4
              rw [h.1] at ha
              exact Bool.noConfusion ha

/-- C6 amended: a query whose device model is recognized by the pattern table
but absent from the similarity matches (the exact filter is empty) gets every
result flagged `isApproximate` with `exactModelRequested` set to that model;
and on every path, a flagged result always carries `exactModelRequested`.  A
model the pattern table does not know — such as `iphone 99` — extracts as
`unknown` and its results are not flagged at all. -/
theorem searchProducts_approximate_flagging :
    (∀ st : ServiceState, ∀ oracle query lim qv raw,
      oracle query = some qv →
      collectSimilarities st.products qv st.vectorStore = .ok raw →
      extractExactDeviceModel query ≠ unknownStr →
      (sortResultsDesc raw).isEmpty = false →
      (filterByExactModel (sortResultsDesc raw)
        (extractExactDeviceModel query)).isEmpty = true →
      ∀ r ∈ searchProducts st oracle query lim,
        r.isApproximate = true ∧
          r.exactModelRequested = some (extractExactDeviceModel query)) ∧
    (∀ st : ServiceState, ∀ oracle query lim,
      ∀ r ∈ searchProducts st oracle query lim,
        r.isApproximate = true → r.exactModelRequested.isSome = true) := by
  constructor
  · intro st oracle query lim qv raw hq hc hm hsort hf r hr
    rw [searchProducts_eq_alternatives_branch st oracle query lim qv raw
      hq hc hm hsort hf] at hr
    obtain ⟨r2, hmem2, hr2⟩ := List.mem_map.1 (List.mem_of_mem_take hr)
    rw [← hr2]
    exact ⟨rfl, rfl⟩
  · intro st oracle query lim r hr ha
    exact approx_implies_model_set st oracle query lim r hr ha

def productC6 : Product :=
  ⟨"p13".data, "PANTALLA IPHONE 13".data, Frac.one,
    mkMetadata "PANTALLA IPHONE 13".data 1 Frac.one,
    [("Prod".data, "PANTALLA IPHONE 13".data)]⟩

def stC6 : ServiceState := ⟨[productC6], [("p13".data, [Frac.one])]⟩

def oracleC6 : Str → Option (List Frac) := fun _ => some [Frac.one]

/-- C6 counterexample: `iphone 99` is not in the device pattern table, so
`searchProducts("iPhone 99 pantalla")` extracts no model, applies no filter,
and returns a non-empty result whose entries are NOT flagged approximate and
carry no `exactModelRequested` — refuting the claim at its own example. -/
theorem searchProducts_iphone99_not_flagged :
    (searchProducts stC6 oracleC6 "iPhone 99 pantalla".data 20).isEmpty = false ∧
    (searchProducts stC6 oracleC6 "iPhone 99 pantalla".data 20).all
      (fun r => !r.isApproximate && decide (r.exactModelRequested = none)) = true := by
  decide

theorem searchProducts_approximate_flagging_witness :
    (searchProducts stC6 oracleC6 "iPhone 15 pantalla".data 20).all
      (fun r => r.isApproximate &&
        decide (r.exactModelRequested = some "iphone 15".data)) = true ∧
    (searchProducts stC6 oracleC6 "iPhone 15 pantalla".data 20).isEmpty = false := by
  constructor
  · rw [List.all_eq_true]
    intro r hr
    have h := searchProducts_approximate_flagging.1 stC6 oracleC6
      "iPhone 15 pantalla".data 20 [Frac.one] _ rfl rfl (by decide) (by decide)
      (by decide) r hr
    rw [h.1, h.2]
    decide
  · decide


theorem sorted_sortResultsDesc (l : List SearchResult) :
    List.Sorted resultLe (sortResultsDesc l) :=
  List.sorted_insertionSort resultLe l

theorem markApproximate_score (m : Str) (r : SearchResult) :
    (markApproximate m r).score = r.score := rfl

theorem markApproximate_productId (m : Str) (r : SearchResult) :
    (markApproximate m r).productId = r.productId := rfl

theorem collect_ids_sublist (ps : List Product) (qv : List Frac)
    (store : List (Str × List Frac)) (raw : List SearchResult)
    (h : collectSimilarities ps qv store = .ok raw) :
    List.Sublist (raw.map SearchResult.productId) (store.map Prod.fst) := by
  induction store generalizing raw with
  | nil =>
    rw [collectSimilarities] at h
    rw [← Except.ok.inj h]
    exact List.nil_sublist _
  | cons e store ih =>
    rw [collectSimilarities] at h
    split at h
    · cases hf : ps.find? (fun p => p.1 = e.1) with
      | none =>
        rw [hf] at h
        exact Except.noConfusion h
      | some p =>
        rw [hf] at h
        cases hrec : collectSimilarities ps qv store with
        | error err =>
          rw [hrec] at h
          exact Except.noConfusion h
        | ok tl =>
          rw [hrec] at h
          rw [← Except.ok.inj h]
          have hid : p.id = e.1 := by
            have := List.find?_some hf
            exact of_decide_eq_true this
          rw [List.map_cons]
          show List.Sublist ((mkSemanticResult p _).productId :: tl.map SearchResult.productId)
            (e.1 :: store.map Prod.fst)
          rw [show (mkSemanticResult p _).productId = p.id from rfl, hid]
          exact List.Sublist.cons₂ _ (ih tl hrec)
    · exact List.Sublist.cons _ (ih raw h)

theorem filterMap_ids_sublist (f : Product → Option SearchResult)
    (l : List Product) (hf : ∀ p r, f p = some r → r.productId = p.id) :
    List.Sublist ((l.filterMap f).map SearchResult.productId) (l.map Product.id) := by
  induction l with
  | nil => exact List.nil_sublist _
  | cons p l ih =>
    cases h : f p with
    | none =>
      rw [List.filterMap_cons_none h, List.map_cons]
      exact List.Sublist.cons _ ih
    | some r =>
      rw [List.filterMap_cons_some h, List.map_cons, List.map_cons, hf p r h]
      exact List.Sublist.cons₂ _ ih

theorem fallback_props (st : ServiceState) (query : Str) (lim : ℕ)
    (h2 : (st.products.map Product.id).Nodup) :
    (fallbackKeywordSearch st query lim).length ≤ lim ∧
    List.Sorted resultLe (fallbackKeywordSearch st query lim) ∧
    ((fallbackKeywordSearch st query lim).map SearchResult.productId).Nodup := by
  rw [fallbackKeywordSearch]
  refine ⟨List.length_take_le _ _, ?_, ?_⟩
  · exact List.Pairwise.sublist (List.take_sublist _ _) (sorted_sortResultsDesc _)
  · have hraw : ((st.products.filterMap (fun p =>
        if 0 < keywordScore (keywordsOf query) (lowerStr p.name) then
          some (mkKeywordResult p (keywordScore (keywordsOf query) (lowerStr p.name)))
        else none)).map SearchResult.productId).Nodup := by
      refine List.Nodup.sublist ?_ h2
      refine filterMap_ids_sublist _ _ ?_
      intro p r h
      split at h
      · rw [← Option.some.inj h]
        rfl
      · exact Option.noConfusion h
    have hperm : ((sortResultsDesc (st.products.filterMap (fun p =>
        if 0 < keywordScore (keywordsOf query) (lowerStr p.name) then
          some (mkKeywordResult p (keywordScore (keywordsOf query) (lowerStr p.name)))
        else none))).map SearchResult.productId).Nodup := by
      refine (List.Perm.nodup_iff ?_).2 hraw
      exact List.Perm.map _ (List.perm_insertionSort resultLe _)
    rw [List.map_take]
    exact List.Nodup.sublist (List.take_sublist _ _) hperm

/-- C3: for every query and limit, `searchProducts` returns at most `limit`
results, sorted by non-increasing score (cosine similarity on the semantic
path, keyword count on the fallback path, both under the score order
`resultLe`), with pairwise-distinct product ids — given the JavaScript `Map`
invariant that the vector store and the product map have unique keys. -/
theorem searchProducts_bounded_sorted_nodup (st : ServiceState)
    (oracle : Str → Option (List Frac)) (query : Str) (lim : ℕ)
    (h1 : (st.vectorStore.map Prod.fst).Nodup)
    (h2 : (st.products.map Product.id).Nodup) :
    (searchProducts st oracle query lim).length ≤ lim ∧
    List.Sorted resultLe (searchProducts st oracle query lim) ∧
    ((searchProducts st oracle query lim).map SearchResult.productId).Nodup := by
  rw [searchProducts]
  split
  · exact ⟨Nat.zero_le lim, List.Pairwise.nil, List.nodup_nil⟩
  · cases hq : oracle query with
    | none => exact fallback_props st query lim h2
    | some qv =>
      dsimp only
      cases hc : collectSimilarities st.products qv st.vectorStore with
      | error e => exact fallback_props st query lim h2
      | ok raw =>
        dsimp only
        have hids_raw : (raw.map SearchResult.productId).Nodup :=
          List.Nodup.sublist (collect_ids_sublist st.products qv st.vectorStore raw hc) h1
        have hids_sorted : ((sortResultsDesc raw).map SearchResult.productId).Nodup :=
          (List.Perm.nodup_iff (List.Perm.map _ (List.perm_insertionSort resultLe raw))).2
            hids_raw
        have hsorted : List.Sorted resultLe (sortResultsDesc raw) :=
          sorted_sortResultsDesc raw
        split
        · exact fallback_props st query lim h2
        · split
          · refine ⟨List.length_take_le _ _, ?_, ?_⟩
            · exact List.Pairwise.sublist (List.take_sublist _ _) hsorted
            · rw [List.map_take]
              exact List.Nodup.sublist (List.take_sublist _ _) hids_sorted
          · split
            · refine ⟨List.length_take_le _ _, ?_, ?_⟩
              · refine List.Pairwise.sublist (List.take_sublist _ _) ?_
                rw [List.pairwise_map]
                refine List.Pairwise.sublist (List.filter_sublist _) ?_
                have : ∀ a b : SearchResult, resultLe a b →
                    resultLe (markApproximate (extractExactDeviceModel query) a)
                      (markApproximate (extractExactDeviceModel query) b) := by
                  intro a b hab
                  exact hab
                exact List.Pairwise.imp (fun hab => this _ _ hab) hsorted
              · rw [List.map_take, List.map_map]
                have hcomp : SearchResult.productId ∘
                    markApproximate (extractExactDeviceModel query) =
                    SearchResult.productId := funext fun x => rfl
                rw [hcomp]
                refine List.Nodup.sublist ?_ hids_sorted
                exact List.Sublist.trans (List.take_sublist _ _)
                  (List.Sublist.map _ (List.filter_sublist _))
            · refine ⟨List.length_take_le _ _, ?_, ?_⟩
              · refine List.Pairwise.sublist (List.take_sublist _ _) ?_
                exact List.Pairwise.sublist (List.filter_sublist _) hsorted
              · rw [List.map_take]
                refine List.Nodup.sublist ?_ hids_sorted
                exact List.Sublist.trans (List.take_sublist _ _)
                  (List.Sublist.map _ (List.filter_sublist _))

theorem searchProducts_bounded_sorted_nodup_witness :
    (searchProducts stC2 oracleC2 "iPhone 14 pantalla".data 1).length ≤ 1 ∧
    List.Sorted resultLe (searchProducts stC2 oracleC2 "iPhone 14 pantalla".data 1) ∧
    ((searchProducts stC2 oracleC2 "iPhone 14 pantalla".data 1).map
      SearchResult.productId).Nodup :=
  searchProducts_bounded_sorted_nodup stC2 oracleC2 "iPhone 14 pantalla".data 1
    (by decide) (by decide)


theorem Frac.ble_total (a b : Frac) : Frac.ble a b = true ∨ Frac.ble b a = true := by
  rw [Frac.ble_iff, Frac.ble_iff]
  exact le_total a.toRat b.toRat

theorem Frac.ble_trans {a b c : Frac} (h1 : Frac.ble a b = true)
    (h2 : Frac.ble b c = true) : Frac.ble a c = true := by
  rw [Frac.ble_iff] at h1 h2 ⊢
  exact le_trans h1 h2

/-- Modelled from the spec: one quality variant of a `QualityGroup` (§3), a
pair of quality tier and validated price (`null` when the item has no
positive price, rendered last in the group). -/
structure QualityOption where
  qualityTier : Str
  price : Option Frac

/-- Modelled from the spec: a `QualityGroup` (§3) — the
`(brand, deviceModel, serviceType)` key with its ordered quality variants. -/
structure QualityGroup where
  brand : Str
  deviceModel : Str
  serviceType : Str
  options : List QualityOption

/-- Modelled from the spec: the Price Validator contract used inside quality
grouping (§4.7/§4.9) — a price is surfaced only when positive, otherwise
`null`. -/
def validatedPrice (p : Product) : Option Frac :=
  if Frac.blt Frac.zero p.price then some p.price else none

/-- Ascending order on validated prices with unpriced entries last (§4.7). -/
def optionLe (x y : QualityOption) : Prop :=
  (match x.price, y.price with
    | some a, some b => Frac.ble a b
    | some _, none => true
    | none, some _ => false
    | none, none => true) = true

instance optionLe.instDecidableRel : DecidableRel optionLe :=
  fun x y => instDecidableEqBool _ _

instance optionLe.instIsTotal : IsTotal QualityOption optionLe := by
  refine ⟨fun x y => ?_⟩
  rw [optionLe, optionLe]
  cases x.price <;> cases y.price
  · exact Or.inl rfl
  · exact Or.inr rfl
  · exact Or.inl rfl
  · exact Frac.ble_total _ _

instance optionLe.instIsTrans : IsTrans QualityOption optionLe := by
  refine ⟨fun x y z => ?_⟩
  rw [optionLe, optionLe, optionLe]
  cases x.price <;> cases y.price <;> cases z.price <;> intro h1 h2 <;>
    first
    | rfl
    | exact Bool.noConfusion h1
    | exact Bool.noConfusion h2
    | exact Frac.ble_trans h1 h2

/-- Modelled from the spec: `findAllQualityOptions` (§4.7) lives in the
enhanced pricing service, whose file is not among the provided sources — only
its callers appear (`aiService.generateEnhancedResponse` and the
`/pricing-search` route).  Per the spec it re-runs the matcher with a broad
`topN` (modelled as recalling the whole catalog), filters to items whose
derived `(brand, deviceModel, serviceType)` matches the target device and
service, groups by that triple, and within each group sorts the quality
variants ascending by validated price with unpriced variants last, one option
per distinct quality tier. -/
def findAllQualityOptions (catalog : List Product) (device service : Str) :
    List QualityGroup :=
  let matched := catalog.filter (fun p =>
    decide (p.metadata.deviceModel = device) && decide (p.metadata.serviceType = service))
  let brands := (matched.map (fun p => p.metadata.brand)).dedup
  brands.map (fun b =>
    let group := matched.filter (fun p => decide (p.metadata.brand = b))
    let tiers := (group.map (fun p => p.metadata.qualityType)).dedup
    let opts := tiers.map (fun t =>
      match group.find? (fun p => p.metadata.qualityType = t) with
      | some p => (⟨t, validatedPrice p⟩ : QualityOption)
      | none => ⟨t, none⟩)
    ⟨b, device, service, opts.insertionSort optionLe⟩)

theorem nodup_all_eq_singleton {α : Type} (l : List α) (a : α) (hn : l.Nodup)
    (ha : a ∈ l) (hall : ∀ x ∈ l, x = a) : l = [a] := by
  cases l with
  | nil => exact absurd ha (List.not_mem_nil a)
  | cons x xs =>
    have hx : x = a := hall x (List.mem_cons_self x xs)
    subst hx
    cases xs with
    | nil => rfl
    | cons y ys =>
      have hy : y = x := hall y (List.mem_cons_of_mem x (List.mem_cons_self y ys))
      rw [List.nodup_cons] at hn
      exact absurd (by rw [← hy]; exact List.mem_cons_self y ys) hn.1

/-- C9 (spec-modelled): for a device+service combination present in the
catalog whose matching items share one brand (the grouping key is the full
triple), `findAllQualityOptions` returns exactly one group, containing one
option per distinct quality tier among the matching items, sorted ascending
by validated price with unpriced options last. -/
theorem findAllQualityOptions_quality_completeness (catalog : List Product)
    (device service : Str)
    (hne : (catalog.filter (fun p =>
      decide (p.metadata.deviceModel = device) &&
        decide (p.metadata.serviceType = service))).isEmpty = false)
    (hbrand : ∀ p ∈ catalog.filter (fun p =>
        decide (p.metadata.deviceModel = device) &&
          decide (p.metadata.serviceType = service)),
      ∀ q ∈ catalog.filter (fun p =>
        decide (p.metadata.deviceModel = device) &&
          decide (p.metadata.serviceType = service)),
      p.metadata.brand = q.metadata.brand) :
    (findAllQualityOptions catalog device service).length = 1 ∧
    ∀ g ∈ findAllQualityOptions catalog device service,
      g.options.length = ((catalog.filter (fun p =>
        decide (p.metadata.deviceModel = device) &&
          decide (p.metadata.serviceType = service))).map
            (fun p => p.metadata.qualityType)).dedup.length ∧
      List.Sorted optionLe g.options := by
  have hmatched : catalog.filter (fun p =>
      decide (p.metadata.deviceModel = device) &&
        decide (p.metadata.serviceType = service)) ≠ [] := by
    intro h0
    rw [h0] at hne
    exact Bool.noConfusion hne
  obtain ⟨p0, hp0⟩ := List.exists_mem_of_ne_nil _ hmatched
  have hb0 : p0.metadata.brand ∈ ((catalog.filter (fun p =>
      decide (p.metadata.deviceModel = device) &&
        decide (p.metadata.serviceType = service))).map
        (fun p => p.metadata.brand)).dedup :=
    List.mem_dedup.2 (List.mem_map.2 ⟨p0, hp0, rfl⟩)
  have hdedup : ((catalog.filter (fun p =>
      decide (p.metadata.deviceModel = device) &&
        decide (p.metadata.serviceType = service))).map
        (fun p => p.metadata.brand)).dedup = [p0.metadata.brand] := by
    refine nodup_all_eq_singleton _ _ (List.nodup_dedup _) hb0 ?_
    intro x hx
    obtain ⟨q, hq, hqx⟩ := List.mem_map.1 (List.mem_dedup.1 hx)
    rw [← hqx]
    exact hbrand q hq p0 hp0
  have hgroup : (catalog.filter (fun p =>
      decide (p.metadata.deviceModel = device) &&
        decide (p.metadata.serviceType = service))).filter
        (fun p => decide (p.metadata.brand = p0.metadata.brand)) =
      catalog.filter (fun p =>
        decide (p.metadata.deviceModel = device) &&
          decide (p.metadata.serviceType = service)) := by
    rw [List.filter_eq_self]
    intro q hq
    rw [decide_eq_true_iff]
    exact hbrand q hq p0 hp0
  rw [findAllQualityOptions]
  dsimp only
  rw [hdedup]
  constructor
  · rfl
  · intro g hg
    rw [List.map_singleton, List.mem_singleton] at hg
    subst hg
    dsimp only
    rw [hgroup]
    constructor
    · rw [(List.perm_insertionSort optionLe _).length_eq, List.length_map]
    · exact List.sorted_insertionSort optionLe _

def catC9 : List Product :=
  [⟨"q1".data, "PANTALLA IPHONE 13 ORIGINAL".data, Frac.one,
      mkMetadata "PANTALLA IPHONE 13 ORIGINAL".data 1 Frac.one, []⟩,
   ⟨"q2".data, "PANTALLA IPHONE 13 INCELL".data, Frac.zero,
      mkMetadata "PANTALLA IPHONE 13 INCELL".data 2 Frac.zero, []⟩]

theorem findAllQualityOptions_quality_completeness_witness :
    (findAllQualityOptions catC9 "iphone 13".data "pantalla".data).length = 1 :=
  (findAllQualityOptions_quality_completeness catC9 "iphone 13".data
    "pantalla".data (by decide) (by decide)).1

end GHLBot
